import Mathlib

/-!
Verification of the NoteDock real-time drawing collaboration subsystem.

Shallow embedding of:
* `src/backend/app/services/drawing_service.py`  (DrawingService)
* `src/backend/app/repositories/drawing_repo.py` (DrawingRepository)
* `src/backend/app/models/drawing.py`, `drawing_history.py`, `drawing_share.py`
* `src/backend/app/websocket/connection_manager.py` (ConnectionManager)
* `src/backend/app/websocket/drawing_ws.py` (drawing_websocket)

Modelling conventions:
* Shape payloads are opaque (`Shape := String`); the synchronization layer
  never inspects shape internals (spec section 9), and no claim depends on
  shape structure.
* The persistence layer is modelled per drawing: a `Store` is the drawing row
  together with its `drawing_history` rows in insertion order.  Every writer
  obtains the entry version from `get_next_version` (max existing version + 1),
  so insertion order coincides with ascending `version` order; SQL queries
  ordered by `version DESC` are embedded as `List.reverse` of the stored list.
* Timestamps (`created_at`, `updated_at`, `connected_at`, `last_activity`,
  `deleted_at`) are elided: no claim under verification mentions them, and
  they influence no branch of the verified code paths.
* Python truthiness tests on lists/strings (`if not snapshot.shapes_snapshot`,
  `if not password`) are translated explicitly, including the fact that an
  empty list or empty string is falsy.
-/

/-- Opaque shape payload (geometry is out of scope at this layer). -/
abbrev Shape := String

/-- An ordered shape collection, the `shapes` JSONB column. -/
abbrev Shapes := List Shape

/-- The `action_data` JSON dict of a history entry, restricted to the keys
this codebase reads or writes: `update_drawing` writes `name` (old/new pair)
and `shapes` (a count dict), `rollback_to_version` writes `target_version`
and `from_version`, and the rollback replay loop reads `shapes` (presence
test) and `new_shapes` (no writer in the repository ever produces it). -/
structure ActionData where
  name_change : Option (String × String) := none
  shapes_count : Option Nat := none
  new_shapes : Option Shapes := none
  target_version : Option Nat := none
  from_version : Option Nat := none
deriving DecidableEq

/-- One row of `drawing_history` (`app/models/drawing_history.py`). -/
structure DrawingHistory where
  action_type : String
  action_data : ActionData
  actor_name : Option String := none
  actor_color : Option String := none
  shapes_snapshot : Option Shapes := none
  version : Nat
deriving DecidableEq

/-- The mutable columns of a `drawings` row (`app/models/drawing.py`).
`owner_id`/`owner_name` and timestamps are elided (no claim mentions them). -/
structure Drawing where
  name : String
  description : Option String := none
  shapes : Shapes
  canvas_width : Nat := 1920
  canvas_height : Nat := 1080
  is_public : Bool := false
  version : Nat := 1
deriving DecidableEq

/-- Persistent state of one drawing: the row plus its history rows in
insertion (= ascending version) order. -/
structure Store where
  drawing : Drawing
  history : List DrawingHistory
deriving DecidableEq

/-- The patch accepted by `update_drawing` (`DrawingUpdate` in
`app/schemas/drawing.py`): every field optional, `None` means absent. -/
structure DrawingUpdate where
  name : Option String := none
  description : Option String := none
  shapes : Option Shapes := none
  canvas_width : Option Nat := none
  canvas_height : Option Nat := none
  is_public : Option Bool := none
deriving DecidableEq

namespace DrawingRepository

/-- Embedding of `DrawingRepository.get_next_version`: `SELECT max(version)` over the
drawing's history (`NULL` coalesced to 0) plus one. -/
def get_next_version (h : List DrawingHistory) : Nat :=
  (h.foldl (fun m e => max m e.version) 0) + 1

/-- Embedding of `DrawingRepository.get_latest_snapshot`: the history entry of maximal
`version` among those with `version < before_version` and
`shapes_snapshot IS NOT NULL`.  The SQL tie order among equal versions is
unspecified; the fold lets a later row win, which is immaterial because all
writers produce strictly increasing versions. -/
def get_latest_snapshot (h : List DrawingHistory) (before_version : Nat) :
    Option DrawingHistory :=
  h.foldl
    (fun acc e =>
      if e.version < before_version ∧ e.shapes_snapshot ≠ none then
        match acc with
        | none => some e
        | some a => if a.version ≤ e.version then some e else some a
      else acc)
    none

/-- Embedding of `DrawingRepository.get_history_by_drawing`: rows ordered by
`version DESC`, limited to `limit` (default 100).  Insertion order is
ascending version order, so `DESC` is the reverse of the stored list. -/
def get_history_by_drawing (h : List DrawingHistory) (limit : Nat := 100) :
    List DrawingHistory :=
  h.reverse.take limit

end DrawingRepository

namespace DrawingService

open DrawingRepository

/-- Embedding of `DrawingService.create_drawing`: a fresh drawing starts at version 1
(model default) with no history entry. -/
def create_drawing (name : String) (shapes : Shapes) : Store :=
  { drawing := { name := name, shapes := shapes }, history := [] }

/-- Embedding of `DrawingService._create_history_entry`: builds the row with the version
obtained from `get_next_version` and appends it. -/
def create_history_entry (h : List DrawingHistory) (action_type : String)
    (action_data : ActionData) (actor_name : Option String)
    (shapes_snapshot : Option Shapes) : List DrawingHistory :=
  h ++ [{ action_type := action_type
          action_data := action_data
          actor_name := actor_name
          actor_color := none
          shapes_snapshot := shapes_snapshot
          version := get_next_version h }]

/-- Embedding of `DrawingService.update_drawing`: merges the present patch fields into the
row, unconditionally increments `version` by one, and appends a single
`update_shapes` history entry exactly when the patch's `shapes` field is
present; every version divisible by 10 additionally records the full shapes
as the entry's `shapes_snapshot`. -/
def update_drawing (st : Store) (u : DrawingUpdate)
    (actor_name : Option String) : Store :=
  let d0 := st.drawing
  let d1 := match u.name with
    | some n => { d0 with name := n }
    | none => d0
  let d2 := match u.description with
    | some s => { d1 with description := some s }
    | none => d1
  let d3 := match u.shapes with
    | some sh => { d2 with shapes := sh }
    | none => d2
  let d4 := match u.canvas_width with
    | some w => { d3 with canvas_width := w }
    | none => d3
  let d5 := match u.canvas_height with
    | some hgt => { d4 with canvas_height := hgt }
    | none => d4
  let d6 := match u.is_public with
    | some p => { d5 with is_public := p }
    | none => d5
  let d7 := { d6 with version := d6.version + 1 }
  match u.shapes with
  | none => { drawing := d7, history := st.history }
  | some sh =>
      { drawing := d7
        history := create_history_entry st.history "update_shapes"
          { name_change := u.name.map (fun n => (d0.name, n))
            shapes_count := some sh.length }
          actor_name
          (if d7.version % 10 == 0 then some sh else none) }

/-- One step of the rollback replay loop in
`DrawingService.rollback_to_version`: entries at or below the snapshot
version or above the target version are skipped; an `update_shapes` entry
whose `action_data` contains the key `shapes` replaces the accumulator with
`action_data.get("new_shapes", shapes)`. -/
def replay_step (snap_version target : Nat) (sh : Shapes)
    (e : DrawingHistory) : Shapes :=
  if e.version ≤ snap_version then sh
  else if target < e.version then sh
  else if e.action_type = "update_shapes" then
    if e.action_data.shapes_count.isSome then e.action_data.new_shapes.getD sh
    else sh
  else sh

/-- Embedding of `DrawingService.rollback_to_version`: looks up the latest snapshot strictly
below `version + 1`; raises `ValidationError` when none is found or when the
found entry's `shapes_snapshot` is falsy (absent or the empty list); otherwise
replays `reversed(get_history_by_drawing(...))` over the snapshot shapes,
bumps the drawing version by one, and appends a `rollback` history entry
carrying the resulting shapes as a snapshot. -/
def rollback_to_version (st : Store) (version : Nat)
    (actor_name : Option String) : Except String Store :=
  match get_latest_snapshot st.history (version + 1) with
  | none => .error "validation: rollback target version unreachable"
  | some snap =>
      match snap.shapes_snapshot with
      | none => .error "validation: rollback target version unreachable"
      | some snap_shapes =>
          if snap_shapes.isEmpty then
            .error "validation: rollback target version unreachable"
          else
            let hist := (get_history_by_drawing st.history).reverse
            let shapes := hist.foldl (replay_step snap.version version) snap_shapes
            let d := { st.drawing with
                        shapes := shapes
                        version := st.drawing.version + 1 }
            .ok { drawing := d
                  history := create_history_entry st.history "rollback"
                    { target_version := some version
                      from_version := some (d.version - 1) }
                    actor_name (some shapes) }

/-- Store-level view of rollback: the `ValidationError` path raises before any
mutation of the row or the history, so the state is unchanged on error. -/
def rollback_op (st : Store) (version : Nat)
    (actor_name : Option String) : Store :=
  match rollback_to_version st version actor_name with
  | .ok st' => st'
  | .error _ => st

end DrawingService

/-! ## Share links (`app/models/drawing_share.py`, service share operations)

Instants are modelled as integers; `now` is passed explicitly where the source
calls `datetime.now(...)`/`now_jst()`.  `bcrypt.checkpw` is an opaque boolean
function passed as a parameter: no claim depends on the hash algorithm. -/

/-- One row of `drawing_shares` (token and permission elided to the fields the
claims touch; `password_hash` is `None` or a non-empty bcrypt hash). -/
structure DrawingShare where
  password_hash : Option String := none
  expires_at : Option Int := none
  accessed_at : Option Int := none
  access_count : Nat := 0
deriving DecidableEq

/-- Kinds of errors raised by `DrawingService` (`app/core/errors.py`);
`validation` carries the reason tag of the raised message. -/
inductive ServiceError where
  | notFound
  | validation (reason : String)
deriving DecidableEq

/-- Embedding of `DrawingShare.is_expired`: `False` when `expires_at` is `NULL`, otherwise
`datetime.now(...) > expires_at`. -/
def DrawingShare.is_expired (now : Int) (s : DrawingShare) : Bool :=
  match s.expires_at with
  | none => false
  | some t => now > t

namespace DrawingService

/-- Embedding of `DrawingService.get_share_by_token`: unknown token raises `NotFound`; an
expired share raises `ValidationError` before any password check; a
password-protected share raises `ValidationError` when the supplied password
is falsy (absent or the empty string) or fails `bcrypt.checkpw`; only after
all checks pass are `accessed_at` and `access_count` updated. -/
def get_share_by_token (checkpw : String → String → Bool) (now : Int)
    (share : Option DrawingShare) (password : Option String) :
    Except ServiceError DrawingShare :=
  match share with
  | none => .error .notFound
  | some s =>
      if s.is_expired now then .error (.validation "expired")
      else
        match s.password_hash with
        | some h =>
            match password with
            | none => .error (.validation "password required")
            | some pw =>
                if pw = "" then .error (.validation "password required")
                else if ¬ checkpw pw h then
                  .error (.validation "password mismatch")
                else
                  .ok { s with accessed_at := some now
                               access_count := s.access_count + 1 }
        | none =>
            .ok { s with accessed_at := some now
                         access_count := s.access_count + 1 }

/-- Database-level view of a token access: on success the updated share row is
committed; on any error no write happens. -/
def access_share (checkpw : String → String → Bool) (now : Int)
    (share : Option DrawingShare) (password : Option String) :
    Option DrawingShare × Except ServiceError DrawingShare :=
  match get_share_by_token checkpw now share password with
  | .ok s' => (some s', .ok s')
  | .error e => (share, .error e)

end DrawingService

/-! ## Connection manager (`app/websocket/connection_manager.py`)

Live websocket connections are identified by naturals.  Send success is an
oracle `ok : Nat → Bool` fixed for an execution: `ok ws = false` models an
unreachable peer whose `send_json` raises.  A failed send produces no event;
a successful one produces `Event.sent`.

Python's `disconnect` broadcasts a `user_left` frame, and a broadcast evicts
(fully disconnects) every member whose send failed, recursively.  The
recursion is embedded as `ConnectionManager.evict` over a worklist: evicting
a connection removes it and prepends the members whose `user_left` send
failed, which is exactly Python's depth-first call order. -/

/-- The ephemeral `Collaborator` dataclass (timestamps elided, cursor
coordinates as integers; no claim depends on the numeric type). -/
structure Collaborator where
  ws : Nat
  user_id : String
  user_name : String
  user_color : String
  cursor_x : Option Int := none
  cursor_y : Option Int := none
deriving DecidableEq

/-- State of the manager: `rooms` is the dict `drawing_id -> [Collaborator]`,
`conns` the dict `websocket -> (drawing_id, collaborator)`, both as
association lists in insertion order. -/
structure CMState where
  rooms : List (String × List Collaborator) := []
  conns : List (Nat × String × Collaborator) := []
deriving DecidableEq

/-- The dict entry produced by `get_room_collaborators` for one member. -/
structure RosterEntry where
  user_id : String
  user_name : String
  user_color : String
  cursor_x : Option Int := none
  cursor_y : Option Int := none
deriving DecidableEq

/-- Outbound frames produced by the manager and the websocket endpoint. -/
inductive OutMsg where
  | userJoined (user_id user_name user_color : String)
      (collaborators : List RosterEntry)
  | userLeft (user_id user_name : String) (collaborators : List RosterEntry)
  | cursorMove (user_id user_name user_color : String) (x y : Int)
  | shapeAdd (shape : Option Shape) (user_id user_name : String)
  | shapeUpdate (shape_id changes : Option String) (user_id user_name : String)
  | shapeDelete (shape_ids : List String) (user_id user_name : String)
  | shapesSync (shapes : Shapes) (user_id user_name : String)
  | selectionChange (selected_ids : List String)
      (user_id user_name user_color : String)
  | chat (message : String) (user_id user_name user_color : String)
  | pong
deriving DecidableEq

/-- An observable delivery: `send_json` that returned without raising. -/
inductive Event where
  | sent (ws : Nat) (msg : OutMsg)
deriving DecidableEq

namespace ConnectionManager

/-- Room list for a drawing id (missing key reads as the empty room, matching
the `drawing_id not in self._rooms` guards). -/
def getRoom (s : CMState) (rid : String) : List Collaborator :=
  (s.rooms.lookup rid).getD []

/-- Embedding of `ConnectionManager.get_room_collaborators`: the member dicts in room
order, `[]` for an unknown room. -/
def get_room_collaborators (s : CMState) (rid : String) : List RosterEntry :=
  (getRoom s rid).map (fun c =>
    { user_id := c.user_id, user_name := c.user_name
      user_color := c.user_color
      cursor_x := c.cursor_x, cursor_y := c.cursor_y })

/-- Deletion of a key from the `_connections` dict. -/
def eraseConn (conns : List (Nat × String × Collaborator)) (ws : Nat) :
    List (Nat × String × Collaborator) :=
  conns.filter (fun p => p.1 ≠ ws)

/-- The room update in `disconnect`: filter the member out of its room and
delete the room key when the filtered list is empty. -/
def removeFromRooms (rooms : List (String × List Collaborator)) (rid : String)
    (ws : Nat) : List (String × List Collaborator) :=
  rooms.foldr
    (fun rl acc =>
      if rl.1 = rid then
        let l := rl.2.filter (fun c => c.ws ≠ ws)
        if l.isEmpty then acc else (rl.1, l) :: acc
      else rl :: acc)
    []

/-- The send loop of `broadcast_to_room`: iterate the room members, skip the
excluded connection, record a delivery per successful send and collect the
websockets whose send raised (the `disconnected` list). -/
def sendRoom (ok : Nat → Bool) (s : CMState) (rid : String) (msg : OutMsg)
    (exclude : Option Nat) : List Event × List Nat :=
  (getRoom s rid).foldl
    (fun acc c =>
      if exclude = some c.ws then acc
      else if ok c.ws then (acc.1 ++ [Event.sent c.ws msg], acc.2)
      else (acc.1, acc.2 ++ [c.ws]))
    ([], [])

/-- Length strictly drops when a present key is filtered out (used for the
termination of `evict`). -/
theorem length_eraseConn_lt {conns : List (Nat × String × Collaborator)}
    {ws : Nat} {v : String × Collaborator} (h : conns.lookup ws = some v) :
    (eraseConn conns ws).length < conns.length := by
  induction conns with
  | nil => simp [List.lookup] at h
  | cons p rest ih =>
      obtain ⟨k, v'⟩ := p
      cases hbe : (ws == k) with
      | true =>
          have hk : k = ws := (eq_of_beq hbe).symm
          subst hk
          simp only [eraseConn, List.filter_cons, ne_eq, not_true_eq_false,
            decide_False, List.length_cons]
          exact Nat.lt_succ_of_le (List.length_filter_le _ _)
      | false =>
          have h' : rest.lookup ws = some v := by
            simpa [List.lookup, hbe] using h
          have hk : k ≠ ws := fun hh => by simp [hh] at hbe
          have hlt := ih h'
          simp [eraseConn, List.filter_cons, hk] at hlt ⊢
          omega

/-- The eviction cascade.  `evict s (ws :: rest)` is Python's
`await self.disconnect(ws)` followed by the remaining cleanup: an unknown
websocket is skipped; otherwise the member is removed from its room (deleting
an emptied room), removed from `_connections`, a `user_left` frame carrying
the refreshed roster is broadcast to the remaining room members with no
exclusion, and the members whose `user_left` send failed are disconnected
depth-first before the rest of the worklist. -/
def evict (ok : Nat → Bool) (s : CMState) (l : List Nat) :
    CMState × List Event :=
  match l with
  | [] => (s, [])
  | ws :: rest =>
      match hlk : s.conns.lookup ws with
      | none => evict ok s rest
      | some (rid, c) =>
          let s1 : CMState :=
            { rooms := removeFromRooms s.rooms rid ws
              conns := eraseConn s.conns ws }
          let msg := OutMsg.userLeft c.user_id c.user_name
            (get_room_collaborators s1 rid)
          let sent := sendRoom ok s1 rid msg none
          let rec2 := evict ok s1 (sent.2 ++ rest)
          (rec2.1, sent.1 ++ rec2.2)
termination_by (s.conns.length, l.length)
decreasing_by
  · exact Prod.Lex.right _ (Nat.lt_succ_self _)
  · exact Prod.Lex.left _ _ (length_eraseConn_lt hlk)

/-- Embedding of `ConnectionManager.disconnect`: idempotent removal plus `user_left`
notification, with the cascade of evictions its own broadcast can trigger. -/
def disconnect (ok : Nat → Bool) (s : CMState) (ws : Nat) :
    CMState × List Event :=
  evict ok s [ws]

/-- Embedding of `ConnectionManager.broadcast_to_room`: no-op for an unknown room;
otherwise best-effort sends to every non-excluded member followed by
disconnection of every member whose send raised. -/
def broadcast_to_room (ok : Nat → Bool) (s : CMState) (rid : String)
    (msg : OutMsg) (exclude : Option Nat) : CMState × List Event :=
  if (s.rooms.lookup rid).isSome then
    let sent := sendRoom ok s rid msg exclude
    let rec2 := evict ok s sent.2
    (rec2.1, sent.1 ++ rec2.2)
  else (s, [])

/-- Embedding of `ConnectionManager.send_to_user`: one direct send; a raising send
disconnects the target. -/
def send_to_user (ok : Nat → Bool) (s : CMState) (ws : Nat) (msg : OutMsg) :
    CMState × List Event :=
  if ok ws then (s, [Event.sent ws msg]) else disconnect ok s ws

/-- Embedding of `ConnectionManager.connect`: append a fresh collaborator to the (lazily
created) room, set the `_connections` entry (dict assignment: any previous
entry under the same key is replaced), then `_broadcast_user_joined` with the
refreshed roster, excluding the new connection itself. -/
def connect (ok : Nat → Bool) (s : CMState) (ws : Nat)
    (rid user_id user_name user_color : String) : CMState × List Event :=
  let c : Collaborator :=
    { ws := ws, user_id := user_id, user_name := user_name
      user_color := user_color }
  let rooms' :=
    if (s.rooms.lookup rid).isSome then
      s.rooms.map (fun rl => if rl.1 = rid then (rl.1, rl.2 ++ [c]) else rl)
    else s.rooms ++ [(rid, [c])]
  let s1 : CMState :=
    { rooms := rooms', conns := eraseConn s.conns ws ++ [(ws, rid, c)] }
  let msg := OutMsg.userJoined user_id user_name user_color
    (get_room_collaborators s1 rid)
  let b := broadcast_to_room ok s1 rid msg (some ws)
  (b.1, b.2)

/-- Embedding of `ConnectionManager.update_cursor`: no-op for an unknown connection;
otherwise the cursor fields of the one collaborator object (aliased from both
dicts) are updated. -/
def update_cursor (s : CMState) (ws : Nat) (x y : Int) : CMState :=
  match s.conns.lookup ws with
  | none => s
  | some (rid, c) =>
      let c' := { c with cursor_x := some x, cursor_y := some y }
      { rooms := s.rooms.map
          (fun rl => (rl.1, rl.2.map (fun m => if m.ws = ws then c' else m)))
        conns := s.conns.map
          (fun p => if p.1 = ws then (p.1, rid, c') else p) }

end ConnectionManager

/-! ## Websocket endpoint (`app/websocket/drawing_ws.py`)

`drawing_websocket` holds only the connection manager and the per-session
constants (`drawing_id`, `user_id`, `user_name`, `user_color`); it has no
database session and never calls `DrawingService`, so the message loop cannot
read or write the `Store`.  The system-level step below pairs the manager
state with the drawing's store to make that observable. -/

/-- A decoded inbound frame: `data.get(...)` reads, `none` for absent keys.
Defaults in the source (`data.get("x", 0)` etc.) are applied at the read
site, as in the code. -/
structure FrameData where
  type? : Option String := none
  x : Option Int := none
  y : Option Int := none
  shape : Option Shape := none
  shape_id : Option String := none
  changes : Option String := none
  shape_ids : Option (List String) := none
  shapes : Option Shapes := none
  selected_ids : Option (List String) := none
  message : Option String := none
deriving DecidableEq

/-- One item of the inbound stream: either a frame that decoded to a JSON
object, or a frame on which `websocket.receive_json()` (or the subsequent
`data.get`) raises. -/
inductive Inbound where
  | malformed
  | frame (d : FrameData)
deriving DecidableEq

namespace DrawingWS

open ConnectionManager

/-- The message dispatch of `drawing_websocket` for one decoded frame: each
recognized `type` value broadcasts (excluding the sender, except `chat`) or
replies directly (`ping`); any other value, including an absent `type`,
matches no branch and falls through with no effect. -/
def wsStep (ok : Nat → Bool) (rid user_id user_name user_color : String)
    (sender : Nat) (s : CMState) (d : FrameData) : CMState × List Event :=
  if d.type? = some "cursor_move" then
    let x := d.x.getD 0
    let y := d.y.getD 0
    let s1 := update_cursor s sender x y
    broadcast_to_room ok s1 rid
      (OutMsg.cursorMove user_id user_name user_color x y) (some sender)
  else if d.type? = some "shape_add" then
    broadcast_to_room ok s rid
      (OutMsg.shapeAdd d.shape user_id user_name) (some sender)
  else if d.type? = some "shape_update" then
    broadcast_to_room ok s rid
      (OutMsg.shapeUpdate d.shape_id d.changes user_id user_name) (some sender)
  else if d.type? = some "shape_delete" then
    broadcast_to_room ok s rid
      (OutMsg.shapeDelete (d.shape_ids.getD []) user_id user_name) (some sender)
  else if d.type? = some "shapes_sync" then
    broadcast_to_room ok s rid
      (OutMsg.shapesSync (d.shapes.getD []) user_id user_name) (some sender)
  else if d.type? = some "selection_change" then
    broadcast_to_room ok s rid
      (OutMsg.selectionChange (d.selected_ids.getD []) user_id user_name
        user_color) (some sender)
  else if d.type? = some "chat" then
    broadcast_to_room ok s rid
      (OutMsg.chat (d.message.getD "") user_id user_name user_color) none
  else if d.type? = some "ping" then
    send_to_user ok s sender OutMsg.pong
  else (s, [])

/-- The receive loop of `drawing_websocket`: frames are processed in order; a
frame whose decode raises is caught by the blanket `except Exception` handler,
which calls `manager.disconnect(websocket)` and ends the session, so the
remaining inbound items are never read. -/
def wsLoop (ok : Nat → Bool) (rid user_id user_name user_color : String)
    (sender : Nat) (s : CMState) : List Inbound → CMState × List Event
  | [] => (s, [])
  | .malformed :: _ => disconnect ok s sender
  | .frame d :: rest =>
      let r1 := wsStep ok rid user_id user_name user_color sender s d
      let r2 := wsLoop ok rid user_id user_name user_color sender r1.1 rest
      (r2.1, r1.2 ++ r2.2)

/-- System-level step: the websocket handler has no database session, so the
`Store` component passes through every message untouched. -/
def systemStep (ok : Nat → Bool) (rid user_id user_name user_color : String)
    (sender : Nat) (sys : CMState × Store) (d : FrameData) :
    (CMState × Store) × List Event :=
  let r := wsStep ok rid user_id user_name user_color sender sys.1 d
  ((r.1, sys.2), r.2)

end DrawingWS

/-! ## Trace layer and concrete states used by the theorems -/

/-- The all-reachable send oracle: every `send_json` succeeds. -/
def allOk : Nat → Bool := fun _ => true

/-- The empty connection manager (module-level `manager = ConnectionManager()`). -/
def cmEmpty : CMState := {}

/-- Registry operations driven by the websocket endpoint: admission
(`manager.connect`, always with a websocket object fresh to the registry) and
removal (`manager.disconnect`). -/
inductive TraceOp where
  | join (ws : Nat) (rid user_id user_name user_color : String)
  | leave (ws : Nat)
deriving DecidableEq

namespace ConnectionManager

/-- State effect of one registry operation (with all sends succeeding, the
setting of the admit/remove claims). -/
def applyOp (s : CMState) : TraceOp → CMState
  | .join ws rid uid uname ucolor => (connect allOk s ws rid uid uname ucolor).1
  | .leave ws => (disconnect allOk s ws).1

/-- State after a sequence of registry operations. -/
def applyTrace (s : CMState) (t : List TraceOp) : CMState :=
  t.foldl applyOp s

/-- Guard of one registry operation: an admission requires a websocket fresh
to the registry (each `WebSocket` object is admitted exactly once, at the
start of its own handler); a removal is always allowed. -/
def opGuard (s : CMState) : TraceOp → Bool
  | .join ws _ _ _ _ => (s.conns.lookup ws).isNone
  | .leave _ => true

/-- Validity of a trace: every operation's guard holds at its state. -/
def traceOK (s : CMState) : List TraceOp → Bool
  | [] => true
  | op :: t => opGuard s op && traceOK (applyOp s op) t

/-- Specification-side roster, following the spec's words: the collaborators
admitted to the room and not yet removed, in admission order.  This is the
reference against which the two-dict implementation is compared. -/
def specStep (rid : String) (cur : List Collaborator) : TraceOp → List Collaborator
  | .join ws rid' uid uname ucolor =>
      if rid' = rid then
        cur ++ [{ ws := ws, user_id := uid, user_name := uname
                  user_color := ucolor }]
      else cur
  | .leave ws => cur.filter (fun c => c.ws ≠ ws)

/-- Specification-side roster after a trace. -/
def specRoster (rid : String) (init : List Collaborator) (t : List TraceOp) :
    List Collaborator :=
  t.foldl (specStep rid) init

/-- Well-formedness of the manager state, the invariant every reachable state
satisfies: distinct dict keys, no empty room, each room member registered in
`_connections` under its own websocket with its own room id, each
`_connections` entry present in its room, and distinct websockets per room. -/
structure CMInv (s : CMState) : Prop where
  rooms_nodup : (s.rooms.map Prod.fst).Nodup
  conns_nodup : (s.conns.map Prod.fst).Nodup
  room_nonempty : ∀ rl ∈ s.rooms, rl.2 ≠ []
  mem_to_conn : ∀ rl ∈ s.rooms, ∀ c ∈ rl.2,
    s.conns.lookup c.ws = some (rl.1, c)
  conn_to_mem : ∀ p ∈ s.conns, ∃ rl ∈ s.rooms,
    rl.1 = p.2.1 ∧ p.2.2 ∈ rl.2 ∧ p.2.2.ws = p.1
  ws_nodup : ∀ rl ∈ s.rooms, (rl.2.map Collaborator.ws).Nodup

end ConnectionManager

/-- Histories in which no entry's `action_data` carries a `new_shapes` key.
Every writer in the repository produces such entries (`update_drawing` writes
`name`/`shapes`, `rollback_to_version` writes `target_version`/`from_version`),
so this holds of every reachable store. -/
def noNewShapes (h : List DrawingHistory) : Bool :=
  h.all (fun e => e.action_data.new_shapes == none)

/-! Concrete stores.  `c3Store` is a drawing created with shapes `["s0"]` and
then updated ten times, the k-th update replacing the shapes with `["sk"]`:
the drawing ends at version 11 with history entries at versions 1..10, entry 9
carrying the decennial snapshot `["s9"]`, and entry 10 recording the update
that made `["s10"]` live.  `c4Store` is the same construction with the empty
shape list throughout, so the decennial snapshot at entry 9 is `some []`. -/

/-- A drawing after ten shape updates (see the section comment). -/
def c3Store : Store :=
  (List.range 10).foldl
    (fun st k =>
      DrawingService.update_drawing st
        { shapes := some ["s" ++ toString (k + 1)] } none)
    (DrawingService.create_drawing "d" ["s0"])

/-- A drawing after nine updates that each set the empty shape list (see the
section comment). -/
def c4Store : Store :=
  (List.range 9).foldl
    (fun st _ =>
      DrawingService.update_drawing st { shapes := some ([] : Shapes) } none)
    (DrawingService.create_drawing "d" [])

/-- A drawing at version 3 whose shapes were updated twice (history entries at
versions 1 and 2), the store of the C1 scenario. -/
def c1Store : Store :=
  DrawingService.update_drawing
    (DrawingService.update_drawing (DrawingService.create_drawing "D1" ["x0"])
      { shapes := some ["x1"] } none)
    { shapes := some ["x2"] } none

/-- A room `"D1"` holding participants A (websocket 1) and B (websocket 2). -/
def roomAB : CMState :=
  ConnectionManager.applyTrace cmEmpty
    [TraceOp.join 1 "D1" "uidA" "A" "#FF6B6B",
     TraceOp.join 2 "D1" "uidB" "B" "#4ECDC4"]

/-- Result of participant A sending `shape_add` with payload `s1:rect` into
`roomAB` while the store sits at version 3. -/
def c1Res : (CMState × Store) × List Event :=
  DrawingWS.systemStep allOk "D1" "uidA" "A" "#FF6B6B" 1 (roomAB, c1Store)
    { type? := some "shape_add", shape := some "s1:rect" }

/-- Result of a session of A in `roomAB` whose first inbound frame fails to
decode, followed by a `ping` that the loop never reaches. -/
def c6Res : CMState × List Event :=
  DrawingWS.wsLoop allOk "D1" "uidA" "A" "#FF6B6B" 1 roomAB
    [Inbound.malformed, Inbound.frame { type? := some "ping" }]

/-- A room `"D1"` holding three participants on websockets 1, 2 and 3. -/
def roomABC : CMState :=
  ConnectionManager.applyTrace cmEmpty
    [TraceOp.join 1 "D1" "uidA" "A" "#FF6B6B",
     TraceOp.join 2 "D1" "uidB" "B" "#4ECDC4",
     TraceOp.join 3 "D1" "uidC" "C" "#45B7D1"]

/-- A send oracle under which websocket 2 is unreachable. -/
def okExcept2 : Nat → Bool := fun w => w != 2

/-! ## Helper definitions for the proofs -/

namespace DrawingRepository

/-- The step function of the `get_latest_snapshot` fold, named for reuse in
proofs. -/
def glsStep (before_version : Nat) (acc : Option DrawingHistory)
    (e : DrawingHistory) : Option DrawingHistory :=
  if e.version < before_version ∧ e.shapes_snapshot ≠ none then
    match acc with
    | none => some e
    | some a => if a.version ≤ e.version then some e else some a
  else acc

/-- Maximal entry version of a history (0 when empty), the SQL
`max(version)` with `NULL` coalesced. -/
def maxVersion (h : List DrawingHistory) : Nat :=
  h.foldl (fun m e => max m e.version) 0

end DrawingRepository

/-! ## Store lemmas -/

namespace DrawingRepository

theorem get_latest_snapshot_eq_fold (h : List DrawingHistory) (bef : Nat) :
    get_latest_snapshot h bef = h.foldl (glsStep bef) none := rfl

theorem get_next_version_eq (h : List DrawingHistory) :
    get_next_version h = maxVersion h + 1 := rfl

theorem maxVersion_fold_init_le (h : List DrawingHistory) :
    ∀ init : Nat, init ≤ h.foldl (fun m e => max m e.version) init := by
  induction h with
  | nil => intro init; simp
  | cons e t ih =>
      intro init
      exact le_trans (le_max_left _ _) (ih (max init e.version))

theorem maxVersion_fold_mem_le {h : List DrawingHistory} {e : DrawingHistory}
    (hm : e ∈ h) :
    ∀ init : Nat, e.version ≤ h.foldl (fun m ent => max m ent.version) init := by
  induction h with
  | nil => cases hm
  | cons a t ih =>
      intro init
      rcases List.mem_cons.mp hm with he | ht
      · subst he
        exact le_trans (le_max_right _ _)
          (maxVersion_fold_init_le t (max init e.version))
      · exact ih ht (max init a.version)

theorem maxVersion_mem_le {h : List DrawingHistory} {e : DrawingHistory}
    (hm : e ∈ h) : e.version ≤ maxVersion h :=
  maxVersion_fold_mem_le hm 0

theorem gls_fold_some {bef : Nat} :
    ∀ (h : List DrawingHistory) (acc : Option DrawingHistory)
      (e : DrawingHistory),
      h.foldl (glsStep bef) acc = some e →
      acc = some e ∨ (e ∈ h ∧ e.version < bef ∧ e.shapes_snapshot ≠ none) := by
  intro h
  induction h with
  | nil => intro acc e hfold; exact Or.inl hfold
  | cons a t ih =>
      intro acc e hfold
      rcases ih (glsStep bef acc a) e hfold with hstep | hmem
      · unfold glsStep at hstep
        by_cases hc : a.version < bef ∧ a.shapes_snapshot ≠ none
        · rw [if_pos hc] at hstep
          rcases acc with _ | b
          · have hae : a = e := by simpa using hstep
            exact Or.inr ⟨by simp [hae.symm], hae ▸ hc⟩
          · by_cases hb : b.version ≤ a.version
            · have hae : a = e := by simpa [hb] using hstep
              exact Or.inr ⟨by simp [hae.symm], hae ▸ hc⟩
            · have hbe : b = e := by simpa [hb] using hstep
              exact Or.inl (by rw [hbe])
        · rw [if_neg hc] at hstep
          exact Or.inl hstep
      · exact Or.inr ⟨List.mem_cons_of_mem a hmem.1, hmem.2⟩

theorem get_latest_snapshot_some {h : List DrawingHistory} {bef : Nat}
    {e : DrawingHistory} (hs : get_latest_snapshot h bef = some e) :
    e ∈ h ∧ e.version < bef ∧ e.shapes_snapshot ≠ none := by
  rw [get_latest_snapshot_eq_fold] at hs
  rcases gls_fold_some h none e hs with hno | hm
  · cases hno
  · exact hm

theorem gls_fold_none_iff {bef : Nat} :
    ∀ (h : List DrawingHistory) (acc : Option DrawingHistory),
      h.foldl (glsStep bef) acc = none ↔
        acc = none ∧
          ∀ e ∈ h, ¬(e.version < bef ∧ e.shapes_snapshot ≠ none) := by
  intro h
  induction h with
  | nil => intro acc; simp
  | cons a t ih =>
      intro acc
      have hstep : glsStep bef acc a = none ↔
          acc = none ∧ ¬(a.version < bef ∧ a.shapes_snapshot ≠ none) := by
        unfold glsStep
        by_cases hc : a.version < bef ∧ a.shapes_snapshot ≠ none
        · rw [if_pos hc]
          constructor
          · intro hcontra
            rcases acc with _ | b
            · cases hcontra
            · by_cases hb : b.version ≤ a.version
              · simp [hb] at hcontra
              · simp [hb] at hcontra
          · intro hcontra
            exact absurd hc hcontra.2
        · rw [if_neg hc]
          simp [hc]
      constructor
      · intro hfold
        have := (ih (glsStep bef acc a)).mp hfold
        have hs := hstep.mp this.1
        refine ⟨hs.1, ?_⟩
        intro e he
        rcases List.mem_cons.mp he with rfl | ht
        · exact hs.2
        · exact this.2 e ht
      · intro hcond
        refine (ih (glsStep bef acc a)).mpr ?_
        refine ⟨hstep.mpr ⟨hcond.1, hcond.2 a (by simp)⟩, ?_⟩
        intro e he
        exact hcond.2 e (List.mem_cons_of_mem a he)

theorem get_latest_snapshot_none_iff {h : List DrawingHistory} {bef : Nat} :
    get_latest_snapshot h bef = none ↔
      ∀ e ∈ h, e.version < bef → e.shapes_snapshot = none := by
  rw [get_latest_snapshot_eq_fold, gls_fold_none_iff h none]
  constructor
  · intro hc e he hv
    by_contra hne
    exact hc.2 e he ⟨hv, hne⟩
  · intro hc
    refine ⟨rfl, ?_⟩
    intro e he hcon
    exact hcon.2 (hc e he hcon.1)

theorem get_latest_snapshot_append {h : List DrawingHistory}
    {e' : DrawingHistory} {bef : Nat}
    (hgt : ∀ a ∈ h, a.version < e'.version) :
    get_latest_snapshot (h ++ [e']) bef =
      if e'.version < bef ∧ e'.shapes_snapshot ≠ none then some e'
      else get_latest_snapshot h bef := by
  rw [get_latest_snapshot_eq_fold, List.foldl_append]
  have hone : ∀ acc, List.foldl (glsStep bef) acc [e'] = glsStep bef acc e' :=
    fun acc => rfl
  rw [hone]
  cases hacc : h.foldl (glsStep bef) none with
  | none =>
      unfold glsStep
      by_cases hc : e'.version < bef ∧ e'.shapes_snapshot ≠ none
      · simp [hc]
      · simp only [if_neg hc]
        rw [get_latest_snapshot_eq_fold, hacc]
  | some b =>
      have hb : b ∈ h := by
        rcases gls_fold_some h none b hacc with hno | hm
        · cases hno
        · exact hm.1
      unfold glsStep
      by_cases hc : e'.version < bef ∧ e'.shapes_snapshot ≠ none
      · simp only [if_pos hc]
        rw [if_pos (le_of_lt (hgt b hb))]
      · simp only [if_neg hc]
        rw [get_latest_snapshot_eq_fold, hacc]

end DrawingRepository

namespace DrawingService

theorem replay_step_noop {a b : Nat} {init : Shapes} {e : DrawingHistory}
    (hne : e.action_data.new_shapes = none) :
    replay_step a b init e = init := by
  unfold replay_step
  rw [hne]
  split
  · rfl
  split
  · rfl
  split
  · split
    · simp
    · rfl
  · rfl

theorem replay_noop {a b : Nat} :
    ∀ (l : List DrawingHistory) (init : Shapes),
      (∀ e ∈ l, e.action_data.new_shapes = none) →
      l.foldl (replay_step a b) init = init := by
  intro l
  induction l with
  | nil => intro init _; rfl
  | cons e t ih =>
      intro init hn
      have hstep : replay_step a b init e = init :=
        replay_step_noop (hn e (by simp))
      rw [List.foldl_cons, hstep]
      exact ih init (fun x hx => hn x (List.mem_cons_of_mem e hx))

theorem noNewShapes_iff {h : List DrawingHistory} :
    noNewShapes h = true ↔ ∀ e ∈ h, e.action_data.new_shapes = none := by
  unfold noNewShapes
  rw [List.all_eq_true]
  constructor
  · intro hall e he
    have := hall e he
    simpa using this
  · intro hall e he
    simpa using hall e he

theorem mem_replay_list {h : List DrawingHistory} {e : DrawingHistory}
    (hm : e ∈ (DrawingRepository.get_history_by_drawing h).reverse) : e ∈ h := by
  unfold DrawingRepository.get_history_by_drawing at hm
  rw [List.mem_reverse] at hm
  have := (List.take_sublist 100 h.reverse).mem hm
  rwa [List.mem_reverse] at this

end DrawingService

/-- Decidable equality for `Except`, used to state concrete evaluations of
`rollback_to_version`. -/
instance {e a : Type} [DecidableEq e] [DecidableEq a] :
    DecidableEq (Except e a) := fun x y =>
  match x, y with
  | .ok v, .ok w =>
      if h : v = w then .isTrue (by rw [h]) else .isFalse (by intro hc; cases hc; exact h rfl)
  | .error v, .error w =>
      if h : v = w then .isTrue (by rw [h]) else .isFalse (by intro hc; cases hc; exact h rfl)
  | .ok _, .error _ => .isFalse (by intro hc; cases hc)
  | .error _, .ok _ => .isFalse (by intro hc; cases hc)

/-! ## Claims C2, C3, C4 -/

/-- C2 (counterexample): the claim says `version` increases by exactly 1 if
and only if the patch's `shapes` field is present, and otherwise the version
is unchanged.  A name-only patch has no `shapes` field, yet
`update_drawing` moves the version from 1 to 2. -/
theorem claim2_counterexample :
    ({ name := some "renamed" } : DrawingUpdate).shapes = none
    ∧ (DrawingService.create_drawing "d" ["s0"]).drawing.version = 1
    ∧ (DrawingService.update_drawing (DrawingService.create_drawing "d" ["s0"])
        { name := some "renamed" } none).drawing.version = 2 := by
  decide

/-- C2 (amended): a successful `update_drawing` merges only the patchable
fields that are present, increments the drawing `version` by exactly 1 on
every call (whether or not `shapes` is present), leaves the history untouched
when `shapes` is absent, and appends exactly one `update_shapes` HistoryEntry
when `shapes` is present — carrying the next history version
(`max existing entry version + 1`), which is decoupled from the drawing's own
version counter. -/
theorem claim2_amended_update_semantics (st : Store) (u : DrawingUpdate)
    (actor : Option String) :
    (DrawingService.update_drawing st u actor).drawing.version
        = st.drawing.version + 1
    ∧ (DrawingService.update_drawing st u actor).drawing.name
        = u.name.getD st.drawing.name
    ∧ (DrawingService.update_drawing st u actor).drawing.description
        = (u.description.map some).getD st.drawing.description
    ∧ (DrawingService.update_drawing st u actor).drawing.shapes
        = u.shapes.getD st.drawing.shapes
    ∧ (DrawingService.update_drawing st u actor).drawing.canvas_width
        = u.canvas_width.getD st.drawing.canvas_width
    ∧ (DrawingService.update_drawing st u actor).drawing.canvas_height
        = u.canvas_height.getD st.drawing.canvas_height
    ∧ (DrawingService.update_drawing st u actor).drawing.is_public
        = u.is_public.getD st.drawing.is_public
    ∧ (u.shapes = none →
        (DrawingService.update_drawing st u actor).history = st.history)
    ∧ (∀ sh, u.shapes = some sh →
        (DrawingService.update_drawing st u actor).history = st.history ++
          [{ action_type := "update_shapes"
             action_data :=
               { name_change := u.name.map (fun n => (st.drawing.name, n))
                 shapes_count := some sh.length }
             actor_name := actor
             actor_color := none
             shapes_snapshot :=
               if (st.drawing.version + 1) % 10 == 0 then some sh else none
             version := DrawingRepository.get_next_version st.history }]) := by
  obtain ⟨n, ds, sh, cw, ch, ip⟩ := u
  cases n <;> cases ds <;> cases sh <;> cases cw <;> cases ch <;> cases ip <;>
    simp [DrawingService.update_drawing, DrawingService.create_history_entry]

/-- C2 (witness): the amended theorem evaluated on a fresh drawing updated
with a two-shape patch. -/
theorem claim2_amended_witness :
    (DrawingService.update_drawing (DrawingService.create_drawing "d" ["a"])
        { shapes := some ["b", "c"] } none).drawing.version = 2
    ∧ (DrawingService.update_drawing (DrawingService.create_drawing "d" ["a"])
        { shapes := some ["b", "c"] } none).history =
      [{ action_type := "update_shapes"
         action_data := { shapes_count := some 2 }
         actor_name := none
         actor_color := none
         shapes_snapshot := none
         version := 1 }] := by
  have h := claim2_amended_update_semantics
    (DrawingService.create_drawing "d" ["a"]) { shapes := some ["b", "c"] } none
  refine ⟨h.1, ?_⟩
  rw [h.2.2.2.2.2.2.2.2 ["b", "c"] rfl]
  decide

/-- C3 (code bug): the drawing of `c3Store` had shapes `["s10"]` live when
history version 10 was produced (entry 10 is the `update_shapes` record of
that mutation), yet `rollback_to_version` to version 10 succeeds with shapes
`["s9"]`: the replay loop looks for a `new_shapes` key that no writer ever
stores, so every delta is skipped and the result is the raw nearest snapshot
(entry 9), not the state at the target version.  The spec itself flags this
replay gap as an incomplete implementation (section 9). -/
theorem claim3_rollback_replay_gap :
    c3Store.drawing.shapes = ["s10"]
    ∧ (∃ e ∈ c3Store.history, e.version = 10 ∧ e.action_type = "update_shapes")
    ∧ (DrawingService.rollback_op c3Store 10 none).drawing.version
        = c3Store.drawing.version + 1
    ∧ (DrawingService.rollback_op c3Store 10 none).drawing.shapes = ["s9"]
    ∧ (["s9"] : Shapes) ≠ ["s10"] := by
  decide

/-- C4 (counterexample): the claim says rollback fails with Validation only
when no HistoryEntry carrying a `shapes_snapshot` exists at or before the
target version.  In `c4Store` the entry at version 9 carries the snapshot
`some []`, yet `rollback_to_version` to 9 raises Validation, because the code
tests Python truthiness (`not snapshot.shapes_snapshot`) and an empty shape
list is falsy. -/
theorem claim4_counterexample :
    DrawingService.rollback_to_version c4Store 9 none
      = .error "validation: rollback target version unreachable"
    ∧ ∃ e ∈ c4Store.history, e.version ≤ 9 ∧ e.shapes_snapshot ≠ none := by
  decide

/-- C4 (amended): `rollback_to_version` raises a Validation error if and only
if either no history entry at a version at or before the target carries a
(non-null) `shapes_snapshot`, or the latest such entry's snapshot is the
empty shape list (falsy in Python); in the error case the drawing's shapes,
version and history are unchanged. -/
theorem claim4_amended_rollback_validation (st : Store) (v : Nat)
    (actor : Option String) :
    ((∃ msg, DrawingService.rollback_to_version st v actor = .error msg) ↔
      ((∀ e ∈ st.history, e.version ≤ v → e.shapes_snapshot = none)
        ∨ (∃ e, DrawingRepository.get_latest_snapshot st.history (v + 1)
              = some e ∧ e.shapes_snapshot = some [])))
    ∧ (∀ msg, DrawingService.rollback_to_version st v actor = .error msg →
        DrawingService.rollback_op st v actor = st) := by
  constructor
  · cases hgls : DrawingRepository.get_latest_snapshot st.history (v + 1) with
    | none =>
        constructor
        · intro _
          left
          intro e he hv
          exact DrawingRepository.get_latest_snapshot_none_iff.mp hgls e he
            (Nat.lt_succ_of_le hv)
        · intro _
          exact ⟨"validation: rollback target version unreachable", by
            unfold DrawingService.rollback_to_version
            rw [hgls]⟩
    | some e =>
        obtain ⟨hmem, hver, hsnap⟩ :=
          DrawingRepository.get_latest_snapshot_some hgls
        cases hss : e.shapes_snapshot with
        | none => exact absurd hss hsnap
        | some l =>
            by_cases hl : l.isEmpty
            · constructor
              · intro _
                right
                exact ⟨e, rfl, by rw [hss, List.isEmpty_iff.mp hl]⟩
              · intro _
                refine ⟨"validation: rollback target version unreachable", ?_⟩
                unfold DrawingService.rollback_to_version
                simp only [hgls, hss, hl, if_true]
            · have hok : ∀ msg, DrawingService.rollback_to_version st v actor
                  ≠ .error msg := by
                intro msg hcontra
                unfold DrawingService.rollback_to_version at hcontra
                simp [hgls, hss, hl] at hcontra
              constructor
              · intro ⟨msg, hmsg⟩
                exact absurd hmsg (hok msg)
              · intro hrhs
                rcases hrhs with hall | ⟨e', he', hsnap'⟩
                · exact absurd (hall e hmem (Nat.lt_succ_iff.mp hver))
                    (by rw [hss]; simp)
                · injection he' with he'
                  subst he'
                  rw [hss] at hsnap'
                  injection hsnap' with hsnap'
                  subst hsnap'
                  simp at hl
  · intro msg hmsg
    unfold DrawingService.rollback_op
    rw [hmsg]

/-- C4 (witness): the amended theorem's error-leaves-state-unchanged clause
applied to `c4Store` at target version 9. -/
theorem claim4_amended_witness :
    DrawingService.rollback_op c4Store 9 none = c4Store :=
  (claim4_amended_rollback_validation c4Store 9 none).2
    "validation: rollback target version unreachable" (by decide)

/-! ## Claim C5 -/

/-- Value of a successful rollback over a history without `new_shapes` keys:
the replay loop is the identity, so the result shapes are exactly the chosen
snapshot's shapes. -/
theorem rollback_of_nonempty_snapshot (st : Store) (v : Nat)
    (actor : Option String) (e : DrawingHistory) (l : Shapes)
    (hn : noNewShapes st.history = true)
    (hgls : DrawingRepository.get_latest_snapshot st.history (v + 1) = some e)
    (hss : e.shapes_snapshot = some l) (hl : l.isEmpty = false) :
    DrawingService.rollback_to_version st v actor = .ok
      { drawing := { st.drawing with
                      shapes := l
                      version := st.drawing.version + 1 }
        history := DrawingService.create_history_entry st.history "rollback"
          { target_version := some v
            from_version := some st.drawing.version }
          actor (some l) } := by
  have hfold : ((DrawingRepository.get_history_by_drawing st.history).reverse).foldl
      (DrawingService.replay_step e.version v) l = l :=
    DrawingService.replay_noop _ l
      (fun x hx => (DrawingService.noNewShapes_iff.mp hn) x
        (DrawingService.mem_replay_list hx))
  unfold DrawingService.rollback_to_version
  rw [hgls]
  simp [hss, hl, hfold]

/-- C5 (confirmed): starting from any store whose history carries no
`new_shapes` key (none of the repository's writers ever produces one), a
successful rollback to `v` followed by a second rollback to the same `v`
succeeds again, yields the identical resulting shapes, and strictly advances
the version counter by exactly one on each call (rollback never rewinds). -/
theorem claim5_rollback_idempotent_shapes (st : Store) (v : Nat)
    (a₁ a₂ : Option String) (st₁ : Store)
    (hn : noNewShapes st.history = true)
    (h1 : DrawingService.rollback_to_version st v a₁ = .ok st₁) :
    ∃ st₂, DrawingService.rollback_to_version st₁ v a₂ = .ok st₂
      ∧ st₂.drawing.shapes = st₁.drawing.shapes
      ∧ st₁.drawing.version = st.drawing.version + 1
      ∧ st₂.drawing.version = st₁.drawing.version + 1 := by
  cases hgls : DrawingRepository.get_latest_snapshot st.history (v + 1) with
  | none =>
      unfold DrawingService.rollback_to_version at h1
      rw [hgls] at h1
      cases h1
  | some e =>
      obtain ⟨hmem, hver, hsnap⟩ := DrawingRepository.get_latest_snapshot_some hgls
      cases hss : e.shapes_snapshot with
      | none => exact absurd hss hsnap
      | some l =>
          cases hl : l.isEmpty with
          | true =>
              unfold DrawingService.rollback_to_version at h1
              simp [hgls, hss, hl] at h1
          | false =>
              have hfirst := rollback_of_nonempty_snapshot st v a₁ e l hn hgls hss hl
              rw [hfirst] at h1
              injection h1 with h1
              subst h1
              set rb : DrawingHistory :=
                { action_type := "rollback"
                  action_data := { target_version := some v
                                   from_version := some st.drawing.version }
                  actor_name := a₁
                  actor_color := none
                  shapes_snapshot := some l
                  version := DrawingRepository.get_next_version st.history } with hrb
              have hhist : DrawingService.create_history_entry st.history "rollback"
                  { target_version := some v
                    from_version := some st.drawing.version } a₁ (some l)
                  = st.history ++ [rb] := rfl
              have hgt : ∀ a ∈ st.history, a.version < rb.version := by
                intro a ha
                have := DrawingRepository.maxVersion_mem_le ha
                rw [hrb]
                simp only [DrawingRepository.get_next_version_eq]
                omega
              have happ := @DrawingRepository.get_latest_snapshot_append
                st.history rb (v + 1) hgt
              have hn₂ : noNewShapes (st.history ++ [rb]) = true := by
                unfold noNewShapes
                rw [List.all_append, Bool.and_eq_true]
                exact ⟨hn, by simp [hrb]⟩
              by_cases hrv : rb.version < v + 1
              · have hgls₂ : DrawingRepository.get_latest_snapshot
                    (st.history ++ [rb]) (v + 1) = some rb := by
                  rw [happ, if_pos ⟨hrv, by simp [hrb]⟩]
                have hsecond := rollback_of_nonempty_snapshot
                  { drawing := { st.drawing with
                                  shapes := l
                                  version := st.drawing.version + 1 }
                    history := st.history ++ [rb] }
                  v a₂ rb l hn₂ hgls₂ (by simp [hrb]) hl
                exact ⟨_, hsecond, rfl, rfl, rfl⟩
              · have hgls₂ : DrawingRepository.get_latest_snapshot
                    (st.history ++ [rb]) (v + 1) = some e := by
                  rw [happ, if_neg (fun hc => hrv hc.1)]
                  exact hgls
                have hsecond := rollback_of_nonempty_snapshot
                  { drawing := { st.drawing with
                                  shapes := l
                                  version := st.drawing.version + 1 }
                    history := st.history ++ [rb] }
                  v a₂ e l hn₂ hgls₂ hss hl
                exact ⟨_, hsecond, rfl, rfl, rfl⟩

/-- C5 (witness): the theorem applied to `c3Store` at target version 10: the
second rollback also succeeds, reproduces the same shapes, and the version
counter advances from 11 to 12 to 13. -/
theorem claim5_witness :
    ∃ st₂, DrawingService.rollback_to_version
        (DrawingService.rollback_op c3Store 10 none) 10 none = .ok st₂
      ∧ st₂.drawing.shapes = (DrawingService.rollback_op c3Store 10 none).drawing.shapes
      ∧ (DrawingService.rollback_op c3Store 10 none).drawing.version
          = c3Store.drawing.version + 1
      ∧ st₂.drawing.version
          = (DrawingService.rollback_op c3Store 10 none).drawing.version + 1 :=
  claim5_rollback_idempotent_shapes c3Store 10 none none
    (DrawingService.rollback_op c3Store 10 none) (by decide) (by decide)

/-! ## Claims C9, C10 -/

/-- C9 (confirmed): accessing a drawing through an expired share token raises
a Validation error and leaves `access_count` and `accessed_at` untouched (the
error is raised before the update block); moreover any call that changes the
stored share at all is a fully successful validation. -/
theorem claim9_expired_share_counter_unchanged
    (checkpw : String → String → Bool) (now : Int) (s : DrawingShare)
    (password : Option String) (hexp : s.is_expired now = true) :
    DrawingService.access_share checkpw now (some s) password
      = (some s, .error (.validation "expired"))
    ∧ (∀ (sh : Option DrawingShare) (pw : Option String),
        (DrawingService.access_share checkpw now sh pw).1 ≠ sh →
        ∃ s', (DrawingService.access_share checkpw now sh pw).2 = .ok s'
          ∧ (DrawingService.access_share checkpw now sh pw).1 = some s') := by
  constructor
  · unfold DrawingService.access_share DrawingService.get_share_by_token
    simp [hexp]
  · intro sh pw hchanged
    cases hres : DrawingService.get_share_by_token checkpw now sh pw with
    | ok s' =>
        refine ⟨s', ?_, ?_⟩ <;> simp [DrawingService.access_share, hres]
    | error e =>
        exfalso
        apply hchanged
        simp [DrawingService.access_share, hres]

/-- C9 (witness): the theorem evaluated on a share that expired at instant 0,
accessed at instant 1. -/
theorem claim9_witness :
    DrawingService.access_share (fun _ _ => true) 1
        (some { expires_at := some 0, access_count := 5 }) none
      = (some { expires_at := some 0, access_count := 5 },
         .error (.validation "expired")) :=
  (claim9_expired_share_counter_unchanged (fun _ _ => true) 1
    { expires_at := some 0, access_count := 5 } none (by decide)).1

/-- C10 (confirmed): for an unexpired password-protected share, a missing,
empty or non-matching password raises a Validation error with the share row
unchanged, exactly as in the expired case; and the expiry check precedes the
password check — an expired share always reports the expiry error, for every
password argument and every password-checking function, so the password is
never consulted. -/
theorem claim10_password_gate_and_check_order
    (checkpw : String → String → Bool) (now : Int) (s : DrawingShare)
    (hh : String) (hhash : s.password_hash = some hh)
    (hexp : s.is_expired now = false) (password : Option String)
    (hbad : password = none ∨ password = some "" ∨
      ∀ pw, password = some pw → checkpw pw hh = false) :
    (∃ reason, DrawingService.access_share checkpw now (some s) password
        = (some s, .error (.validation reason)))
    ∧ (∀ (checkpw' : String → String → Bool) (pw' : Option String)
        (s' : DrawingShare), s'.is_expired now = true →
        DrawingService.access_share checkpw' now (some s') pw'
          = (some s', .error (.validation "expired"))) := by
  constructor
  · rcases hbad with hnone | hempty | hfail
    · subst hnone
      exact ⟨"password required", by
        unfold DrawingService.access_share DrawingService.get_share_by_token
        simp [hexp, hhash]⟩
    · subst hempty
      exact ⟨"password required", by
        unfold DrawingService.access_share DrawingService.get_share_by_token
        simp [hexp, hhash]⟩
    · cases password with
      | none =>
          exact ⟨"password required", by
            unfold DrawingService.access_share DrawingService.get_share_by_token
            simp [hexp, hhash]⟩
      | some pw =>
          by_cases hpw : pw = ""
          · subst hpw
            exact ⟨"password required", by
              unfold DrawingService.access_share DrawingService.get_share_by_token
              simp [hexp, hhash]⟩
          · exact ⟨"password mismatch", by
              unfold DrawingService.access_share DrawingService.get_share_by_token
              simp [hexp, hhash, hpw, hfail pw rfl]⟩
  · intro checkpw' pw' s' hexp'
    unfold DrawingService.access_share DrawingService.get_share_by_token
    simp [hexp']

/-- C10 (witness): a live password-protected share accessed with a wrong
password at instant 1, and an expired protected share whose error is the
expiry reason regardless of the checker. -/
theorem claim10_witness :
    (∃ reason, DrawingService.access_share (fun pw h => pw = h) 1
        (some { password_hash := some "secret", expires_at := some 9 }) (some "guess")
      = (some { password_hash := some "secret", expires_at := some 9 },
         .error (.validation reason)))
    ∧ DrawingService.access_share (fun _ _ => true) 1
        (some { password_hash := some "secret", expires_at := some 0 }) (some "secret")
      = (some { password_hash := some "secret", expires_at := some 0 },
         .error (.validation "expired")) := by
  have h := claim10_password_gate_and_check_order (fun pw h => decide (pw = h)) 1
    { password_hash := some "secret", expires_at := some 9 } "secret" rfl
    (by decide) (some "guess")
    (Or.inr (Or.inr (fun pw hpw => by
      injection hpw with hpw
      subst hpw
      decide)))
  refine ⟨?_, h.2 (fun _ _ => true) (some "secret")
    { password_hash := some "secret", expires_at := some 0 } (by decide)⟩
  obtain ⟨reason, hr⟩ := h.1
  exact ⟨reason, hr⟩

/-! ## Association list lemmas (connection manager dictionaries) -/

section AssocLemmas

variable {α : Type} {β : Type} [BEq α] [LawfulBEq α]

theorem lookup_mem {l : List (α × β)} {k : α} {v : β}
    (h : l.lookup k = some v) : (k, v) ∈ l := by
  induction l with
  | nil => simp [List.lookup] at h
  | cons p t ih =>
      obtain ⟨a, b⟩ := p
      cases hbe : (k == a) with
      | true =>
          have hk : k = a := eq_of_beq hbe
          subst hk
          have hv : b = v := by simpa [List.lookup] using h
          subst hv
          exact List.mem_cons_self _ _
      | false =>
          have h' : t.lookup k = some v := by simpa [List.lookup, hbe] using h
          exact List.mem_cons_of_mem _ (ih h')

theorem lookup_none_iff {l : List (α × β)} {k : α} :
    l.lookup k = none ↔ ∀ p ∈ l, p.1 ≠ k := by
  induction l with
  | nil => simp [List.lookup]
  | cons p t ih =>
      obtain ⟨a, b⟩ := p
      cases hbe : (k == a) with
      | true =>
          have hk : k = a := eq_of_beq hbe
          subst hk
          simp [List.lookup]
      | false =>
          have hk : k ≠ a := fun hh => by subst hh; simp at hbe
          constructor
          · intro hnone
            have h' : t.lookup k = none := by
              simpa [List.lookup, hbe] using hnone
            intro p hp
            rcases List.mem_cons.mp hp with rfl | hpt
            · simpa using fun hh => hk hh.symm
            · exact ih.mp h' p hpt
          · intro hall
            have h' : t.lookup k = none :=
              ih.mpr (fun p hp => hall p (List.mem_cons_of_mem _ hp))
            simpa [List.lookup, hbe] using h'

theorem lookup_of_mem_nodup {l : List (α × β)} {k : α} {v : β}
    (hnd : (l.map Prod.fst).Nodup) (hm : (k, v) ∈ l) :
    l.lookup k = some v := by
  induction l with
  | nil => cases hm
  | cons p t ih =>
      obtain ⟨a, b⟩ := p
      rw [List.map_cons, List.nodup_cons] at hnd
      rcases List.mem_cons.mp hm with heq | hmt
      · injection heq with h1 h2
        subst h1; subst h2
        simp [List.lookup]
      · have hka : k ≠ a := by
          intro hh
          subst hh
          exact hnd.1 (List.mem_map.mpr ⟨(k, v), hmt, rfl⟩)
        have hbe : (k == a) = false := by
          simp [hka]
        simpa [List.lookup, hbe] using ih hnd.2 hmt

theorem lookup_append {l l' : List (α × β)} {k : α} :
    (l ++ l').lookup k =
      match l.lookup k with
      | some v => some v
      | none => l'.lookup k := by
  induction l with
  | nil => simp [List.lookup]
  | cons p t ih =>
      obtain ⟨a, b⟩ := p
      cases hbe : (k == a) with
      | true => simp [List.lookup, hbe]
      | false => simpa [List.lookup, hbe] using ih

theorem lookup_cons_self {a : α} {b : β} {t : List (α × β)} :
    ((a, b) :: t).lookup a = some b := by
  simp [List.lookup]

theorem lookup_cons_ne {a k : α} {b : β} {t : List (α × β)} (h : k ≠ a) :
    ((a, b) :: t).lookup k = t.lookup k := by
  have hbe : (k == a) = false := by simp [h]
  simp [List.lookup, hbe]

theorem keys_filter_subset {l : List (α × β)} {q : α × β → Bool} {x : α}
    (hx : x ∈ (l.filter q).map Prod.fst) : x ∈ l.map Prod.fst := by
  rcases List.mem_map.mp hx with ⟨p, hp, hpx⟩
  exact List.mem_map.mpr ⟨p, (List.mem_filter.mp hp).1, hpx⟩

end AssocLemmas

namespace ConnectionManager

theorem lookup_eraseConn {conns : List (Nat × String × Collaborator)}
    {ws k : Nat} :
    (eraseConn conns ws).lookup k =
      if k = ws then none else conns.lookup k := by
  induction conns with
  | nil => simp [eraseConn, List.lookup]
  | cons p t ih =>
      obtain ⟨a, b⟩ := p
      by_cases haw : a = ws
      · subst haw
        by_cases hk : k = a
        · subst hk
          simpa [eraseConn, List.filter_cons] using ih
        · have hbe : (k == a) = false := by simp [hk]
          simp only [eraseConn, List.filter_cons] at ih ⊢
          simpa [List.lookup, hk, hbe] using ih
      · have hfa : decide ¬a = ws = true := by simp [haw]
        by_cases hk : k = a
        · subst hk
          simp only [eraseConn, List.filter_cons]
          simp only [ne_eq, hfa]
          have hne : k ≠ ws := fun hh => haw (hh ▸ rfl)
          simp [List.lookup, hne]
        · have hbe : (k == a) = false := by simp [hk]
          simp only [eraseConn, List.filter_cons] at ih ⊢
          simp only [ne_eq, hfa] at ih ⊢
          simpa [List.lookup, hbe] using ih

end ConnectionManager

namespace ConnectionManager

theorem lookup_map_setRoom {rooms : List (String × List Collaborator)}
    {rid : String} {c : Collaborator} {r : String} :
    (rooms.map (fun rl => if rl.1 = rid then (rl.1, rl.2 ++ [c]) else rl)).lookup r
      = if r = rid then (rooms.lookup r).map (fun l => l ++ [c])
        else rooms.lookup r := by
  induction rooms with
  | nil => by_cases hr : r = rid <;> simp [List.lookup, hr]
  | cons p t ih =>
      obtain ⟨a, l⟩ := p
      rw [List.map_cons]
      have hhead : (if (a, l).1 = rid then ((a, l).1, (a, l).2 ++ [c])
            else (a, l))
          = if a = rid then (a, l ++ [c]) else (a, l) := rfl
      rw [hhead]
      by_cases had : a = rid
      · subst had
        rw [if_pos rfl]
        by_cases hr : r = a
        · subst hr
          simp [List.lookup]
        · have hbe : (r == a) = false := by simp [hr]
          simp only [List.lookup, hbe]
          simpa [hr] using ih
      · rw [if_neg had]
        by_cases hr : r = a
        · subst hr
          have hrd : ¬r = rid := had
          simp [List.lookup, hrd]
        · have hbe : (r == a) = false := by simp [hr]
          simp only [List.lookup, hbe]
          exact ih

theorem getRoom_removeFromRooms {rooms : List (String × List Collaborator)}
    {rid : String} {ws : Nat} {r : String}
    (hnd : (rooms.map Prod.fst).Nodup) :
    ((removeFromRooms rooms rid ws).lookup r).getD [] =
      if r = rid then
        ((rooms.lookup r).getD []).filter (fun c => c.ws ≠ ws)
      else (rooms.lookup r).getD [] := by
  induction rooms with
  | nil =>
      by_cases hr : r = rid <;> simp [removeFromRooms, List.lookup, hr]
  | cons p t ih =>
      obtain ⟨a, l⟩ := p
      rw [List.map_cons, List.nodup_cons] at hnd
      have ht := ih hnd.2
      have htnone : t.lookup a = none :=
        lookup_none_iff.mpr (fun q hq hc => hnd.1 (List.mem_map.mpr ⟨q, hq, hc⟩))
      have hunf : removeFromRooms ((a, l) :: t) rid ws =
          if a = rid then
            (if (l.filter (fun c => c.ws ≠ ws)).isEmpty then
              removeFromRooms t rid ws
            else (a, l.filter (fun c => c.ws ≠ ws)) :: removeFromRooms t rid ws)
          else (a, l) :: removeFromRooms t rid ws := rfl
      rw [hunf]
      by_cases had : a = rid
      · subst had
        rw [if_pos rfl]
        by_cases hr : r = a
        · subst hr
          rw [if_pos rfl]
          by_cases hemp : (l.filter (fun c => c.ws ≠ ws)).isEmpty
          · rw [if_pos hemp, ht, if_pos rfl, htnone, lookup_cons_self]
            simpa using (List.isEmpty_iff.mp hemp).symm
          · rw [if_neg hemp]
            simp [lookup_cons_self]
        · rw [if_neg hr]
          by_cases hemp : (l.filter (fun c => c.ws ≠ ws)).isEmpty
          · rw [if_pos hemp, ht, if_neg hr, lookup_cons_ne hr]
          · rw [if_neg hemp, lookup_cons_ne hr, ht, if_neg hr, lookup_cons_ne hr]
      · rw [if_neg had]
        by_cases hr : r = a
        · subst hr
          rw [lookup_cons_self, if_neg had, lookup_cons_self]
        · rw [lookup_cons_ne hr, ht]
          by_cases hrd : r = rid
          · rw [if_pos hrd, if_pos hrd, lookup_cons_ne hr]
          · rw [if_neg hrd, if_neg hrd, lookup_cons_ne hr]

theorem mem_removeFromRooms {rooms : List (String × List Collaborator)}
    {rid : String} {ws : Nat} {rl' : String × List Collaborator} :
    rl' ∈ removeFromRooms rooms rid ws ↔
      (rl' ∈ rooms ∧ rl'.1 ≠ rid) ∨
      (∃ l, (rid, l) ∈ rooms
        ∧ rl' = (rid, l.filter (fun c => c.ws ≠ ws))
        ∧ (l.filter (fun c => c.ws ≠ ws)).isEmpty = false) := by
  induction rooms with
  | nil => simp [removeFromRooms]
  | cons p t ih =>
      obtain ⟨a, l⟩ := p
      simp only [removeFromRooms, List.foldr_cons] at ih ⊢
      by_cases had : a = rid
      · subst had
        rw [if_pos rfl]
        by_cases hemp : (l.filter (fun c => c.ws ≠ ws)).isEmpty
        · rw [if_pos hemp]
          rw [ih]
          constructor
          · rintro (⟨hmem, hne⟩ | ⟨l', hl', heq, hne⟩)
            · exact Or.inl ⟨List.mem_cons_of_mem _ hmem, hne⟩
            · exact Or.inr ⟨l', List.mem_cons_of_mem _ hl', heq, hne⟩
          · rintro (⟨hmem, hne⟩ | ⟨l', hl', heq, hne⟩)
            · rcases List.mem_cons.mp hmem with rfl | hmt
              · exact absurd rfl hne
              · exact Or.inl ⟨hmt, hne⟩
            · rcases List.mem_cons.mp hl' with heq' | hmt
              · injection heq' with _ h2
                subst h2
                rw [hemp] at hne
                cases hne
              · exact Or.inr ⟨l', hmt, heq, hne⟩
        · rw [if_neg hemp]
          constructor
          · intro hmem
            rcases List.mem_cons.mp hmem with heq | hmt
            · refine Or.inr ⟨l, List.mem_cons_self (a, l) t, heq, ?_⟩
              simpa using hemp
            · rcases ih.mp hmt with ⟨hmem', hne⟩ | ⟨l', hl', heq, hne⟩
              · exact Or.inl ⟨List.mem_cons_of_mem _ hmem', hne⟩
              · exact Or.inr ⟨l', List.mem_cons_of_mem _ hl', heq, hne⟩
          · rintro (⟨hmem, hne⟩ | ⟨l', hl', heq, hne⟩)
            · rcases List.mem_cons.mp hmem with rfl | hmt
              · exact absurd rfl hne
              · exact List.mem_cons_of_mem _ (ih.mpr (Or.inl ⟨hmt, hne⟩))
            · rcases List.mem_cons.mp hl' with heq' | hmt
              · injection heq' with _ h2
                subst h2
                rw [heq]
                exact List.mem_cons_self _ _
              · exact List.mem_cons_of_mem _
                  (ih.mpr (Or.inr ⟨l', hmt, heq, hne⟩))
      · rw [if_neg had]
        constructor
        · intro hmem
          rcases List.mem_cons.mp hmem with heq | hmt
          · subst heq
            exact Or.inl ⟨List.mem_cons_self _ _, had⟩
          · rcases ih.mp hmt with ⟨hmem', hne⟩ | ⟨l', hl', heq, hne⟩
            · exact Or.inl ⟨List.mem_cons_of_mem _ hmem', hne⟩
            · exact Or.inr ⟨l', List.mem_cons_of_mem _ hl', heq, hne⟩
        · rintro (⟨hmem, hne⟩ | ⟨l', hl', heq, hne⟩)
          · rcases List.mem_cons.mp hmem with rfl | hmt
            · exact List.mem_cons_self _ _
            · exact List.mem_cons_of_mem _ (ih.mpr (Or.inl ⟨hmt, hne⟩))
          · rcases List.mem_cons.mp hl' with heq' | hmt
            · injection heq' with h1 _
              exact absurd h1.symm had
            · exact List.mem_cons_of_mem _
                (ih.mpr (Or.inr ⟨l', hmt, heq, hne⟩))

theorem removeFromRooms_keys_sublist
    {rooms : List (String × List Collaborator)} {rid : String} {ws : Nat} :
    ((removeFromRooms rooms rid ws).map Prod.fst).Sublist
      (rooms.map Prod.fst) := by
  induction rooms with
  | nil => simp [removeFromRooms]
  | cons p t ih =>
      obtain ⟨a, l⟩ := p
      simp only [removeFromRooms, List.foldr_cons] at ih ⊢
      by_cases had : a = rid
      · rw [if_pos had]
        by_cases hemp : (l.filter (fun c => c.ws ≠ ws)).isEmpty
        · rw [if_pos hemp]
          exact ih.trans (List.sublist_cons_self _ _)
        · rw [if_neg hemp]
          simp only [List.map_cons]
          exact List.Sublist.cons₂ _ ih
      · rw [if_neg had]
        simp only [List.map_cons]
        exact List.Sublist.cons₂ _ ih

end ConnectionManager

namespace ConnectionManager

theorem inv_remove {s : CMState} {ws : Nat} {rid : String} {c : Collaborator}
    (hInv : CMInv s) (hlk : s.conns.lookup ws = some (rid, c)) :
    CMInv { rooms := removeFromRooms s.rooms rid ws
            conns := eraseConn s.conns ws } := by
  obtain ⟨hrn, hcn, hne, hmc, hcm, hwn⟩ := hInv
  refine ⟨?_, ?_, ?_, ?_, ?_, ?_⟩
  · exact List.Nodup.sublist removeFromRooms_keys_sublist hrn
  · exact List.Nodup.sublist
      (List.Sublist.map Prod.fst (List.filter_sublist _)) hcn
  · intro rl hrl
    rcases mem_removeFromRooms.mp hrl with ⟨hmem, _⟩ | ⟨l, _, heq, hnemp⟩
    · exact hne rl hmem
    · rw [heq]
      intro hcontra
      have hfe : (l.filter (fun c => c.ws ≠ ws)) = [] := hcontra
      rw [hfe] at hnemp
      simp at hnemp
  · intro rl hrl c' hc'
    rcases mem_removeFromRooms.mp hrl with ⟨hmem, hnrid⟩ | ⟨l, hlmem, heq, _⟩
    · have hold := hmc rl hmem c' hc'
      have hnw : c'.ws ≠ ws := by
        intro hh
        rw [hh, hlk] at hold
        injection hold with hold
        injection hold with h1 _
        exact hnrid h1.symm
      rw [lookup_eraseConn, if_neg hnw]
      exact hold
    · rw [heq] at hc'
      have hc'l := List.mem_filter.mp hc'
      have hnw : c'.ws ≠ ws := by simpa using hc'l.2
      have hold := hmc (rid, l) hlmem c' hc'l.1
      rw [lookup_eraseConn, if_neg hnw, heq]
      exact hold
  · intro p hp
    have hpf := List.mem_filter.mp hp
    have hpnw : p.1 ≠ ws := by simpa using hpf.2
    obtain ⟨rl, hrlmem, hr1, hr2, hr3⟩ := hcm p hpf.1
    by_cases hrid : rl.1 = rid
    · have hmemf : p.2.2 ∈ rl.2.filter (fun x => x.ws ≠ ws) :=
        List.mem_filter.mpr ⟨hr2, by simp [hr3, hpnw]⟩
      have hnemp : (rl.2.filter (fun x => x.ws ≠ ws)).isEmpty = false := by
        cases hemp : (rl.2.filter (fun x => x.ws ≠ ws)).isEmpty with
        | true =>
            rw [List.isEmpty_iff.mp hemp] at hmemf
            cases hmemf
        | false => rfl
      refine ⟨(rid, rl.2.filter (fun x => x.ws ≠ ws)), ?_, ?_, hmemf, hr3⟩
      · exact mem_removeFromRooms.mpr
          (Or.inr ⟨rl.2, by rw [← hrid]; exact hrlmem, rfl, hnemp⟩)
      · rw [← hrid]
        exact hr1
    · exact ⟨rl, mem_removeFromRooms.mpr (Or.inl ⟨hrlmem, hrid⟩),
        hr1, hr2, hr3⟩
  · intro rl hrl
    rcases mem_removeFromRooms.mp hrl with ⟨hmem, _⟩ | ⟨l, hlmem, heq, _⟩
    · exact hwn rl hmem
    · rw [heq]
      exact List.Nodup.sublist
        (List.Sublist.map Collaborator.ws (List.filter_sublist _))
        (hwn (rid, l) hlmem)

theorem sendRoom_fold (ok : Nat → Bool) (msg : OutMsg) (ex : Option Nat) :
    ∀ (l : List Collaborator) (acc : List Event × List Nat),
      l.foldl (fun acc c =>
          if ex = some c.ws then acc
          else if ok c.ws then (acc.1 ++ [Event.sent c.ws msg], acc.2)
          else (acc.1, acc.2 ++ [c.ws])) acc
        = (acc.1 ++ (l.filter (fun c => !decide (ex = some c.ws) && ok c.ws)).map
              (fun c => Event.sent c.ws msg),
           acc.2 ++ (l.filter (fun c => !decide (ex = some c.ws) && !ok c.ws)).map
              (fun c => c.ws)) := by
  intro l
  induction l with
  | nil => intro acc; simp
  | cons c t ih =>
      intro acc
      rw [List.foldl_cons]
      by_cases hex : ex = some c.ws
      · rw [if_pos hex, ih]
        simp [hex]
      · rw [if_neg hex]
        cases hok : ok c.ws with
        | true =>
            rw [if_pos rfl, ih]
            simp [hex, hok]
        | false =>
            rw [if_neg Bool.false_ne_true, ih]
            simp [hex, hok]

theorem sendRoom_eq (ok : Nat → Bool) (s : CMState) (rid : String)
    (msg : OutMsg) (ex : Option Nat) :
    sendRoom ok s rid msg ex =
      (((getRoom s rid).filter (fun c => !decide (ex = some c.ws) && ok c.ws)).map
         (fun c => Event.sent c.ws msg),
       ((getRoom s rid).filter (fun c => !decide (ex = some c.ws) && !ok c.ws)).map
         (fun c => c.ws)) := by
  unfold sendRoom
  rw [sendRoom_fold]
  simp

theorem sendRoom_allOk_dead (s : CMState) (rid : String) (msg : OutMsg)
    (ex : Option Nat) : (sendRoom allOk s rid msg ex).2 = [] := by
  rw [sendRoom_eq]
  simp [allOk]

end ConnectionManager

namespace ConnectionManager

theorem evict_nil (ok : Nat → Bool) (s : CMState) : evict ok s [] = (s, []) := by
  rw [evict]

theorem evict_cons_none {ok : Nat → Bool} {s : CMState} {ws : Nat}
    {rest : List Nat} (h : s.conns.lookup ws = none) :
    evict ok s (ws :: rest) = evict ok s rest := by
  rw [evict, h]

theorem evict_cons_some {ok : Nat → Bool} {s : CMState} {ws : Nat}
    {rest : List Nat} {rid : String} {c : Collaborator}
    (h : s.conns.lookup ws = some (rid, c)) :
    evict ok s (ws :: rest) =
      (let s1 : CMState := { rooms := removeFromRooms s.rooms rid ws
                             conns := eraseConn s.conns ws }
       let msg := OutMsg.userLeft c.user_id c.user_name
         (get_room_collaborators s1 rid)
       let sent := sendRoom ok s1 rid msg none
       ((evict ok s1 (sent.2 ++ rest)).1,
        sent.1 ++ (evict ok s1 (sent.2 ++ rest)).2)) := by
  rw [evict, h]

theorem evict_conns_keys_subset (ok : Nat → Bool) (s : CMState)
    (l : List Nat) :
    ∀ w, w ∈ ((evict ok s l).1.conns.map Prod.fst) →
      w ∈ s.conns.map Prod.fst := by
  refine evict.induct ok
    (fun s l => ∀ w, w ∈ ((evict ok s l).1.conns.map Prod.fst) →
      w ∈ s.conns.map Prod.fst) ?_ ?_ ?_ s l
  · intro s w hw
    rw [evict_nil] at hw
    exact hw
  · intro s ws rest hlk ih w hw
    rw [evict_cons_none hlk] at hw
    exact ih w hw
  · intro s ws rest rid c hlk s1 msg sent ih w hw
    rw [evict_cons_some hlk] at hw
    exact keys_filter_subset (ih w hw)

theorem evict_removes (ok : Nat → Bool) (s : CMState) (l : List Nat) :
    ∀ w ∈ l, w ∉ ((evict ok s l).1.conns.map Prod.fst) := by
  refine evict.induct ok
    (fun s l => ∀ w ∈ l, w ∉ ((evict ok s l).1.conns.map Prod.fst))
    ?_ ?_ ?_ s l
  · intro s w hw
    cases hw
  · intro s ws rest hlk ih w hw hmem
    rw [evict_cons_none hlk] at hmem
    rcases List.mem_cons.mp hw with rfl | hwr
    · have hkeys := evict_conns_keys_subset ok s rest w hmem
      rcases List.mem_map.mp hkeys with ⟨p, hp, hpw⟩
      exact lookup_none_iff.mp hlk p hp hpw
    · exact ih w hwr hmem
  · intro s ws rest rid c hlk s1 msg sent ih w hw hmem
    rw [evict_cons_some hlk] at hmem
    rcases List.mem_cons.mp hw with rfl | hwr
    · have hkeys : w ∈ s1.conns.map Prod.fst :=
        evict_conns_keys_subset ok s1 (sent.2 ++ rest) w hmem
      rcases List.mem_map.mp hkeys with ⟨p, hp, hpw⟩
      have hp' : p ∈ s.conns.filter (fun q => q.1 ≠ w) := hp
      have hpf := (List.mem_filter.mp hp').2
      rw [hpw] at hpf
      simp at hpf
    · exact ih w (List.mem_append_right _ hwr) hmem

theorem evict_inv (ok : Nat → Bool) (s : CMState) (l : List Nat) :
    CMInv s → CMInv (evict ok s l).1 := by
  refine evict.induct ok
    (fun s l => CMInv s → CMInv (evict ok s l).1) ?_ ?_ ?_ s l
  · intro s hInv
    rw [evict_nil]
    exact hInv
  · intro s ws rest hlk ih hInv
    rw [evict_cons_none hlk]
    exact ih hInv
  · intro s ws rest rid c hlk s1 msg sent ih hInv
    rw [evict_cons_some hlk]
    exact ih (inv_remove hInv hlk)

end ConnectionManager

namespace ConnectionManager

theorem getRoom_of_lookup_none {s : CMState} {rid : String}
    (h : s.rooms.lookup rid = none) : getRoom s rid = [] := by
  unfold getRoom
  rw [h]
  rfl

theorem broadcast_allOk_eq (s : CMState) (rid : String) (msg : OutMsg)
    (ex : Option Nat) :
    broadcast_to_room allOk s rid msg ex =
      (s, ((getRoom s rid).filter (fun c => !decide (ex = some c.ws))).map
            (fun c => Event.sent c.ws msg)) := by
  unfold broadcast_to_room
  by_cases h : (s.rooms.lookup rid).isSome
  · rw [if_pos h]
    simp [sendRoom_eq, allOk, evict_nil]
  · rw [if_neg h]
    have hg : getRoom s rid = [] := by
      unfold getRoom
      cases hl : s.rooms.lookup rid with
      | none => rfl
      | some l => simp [hl] at h
    simp [hg]

theorem not_in_roster_of_not_in_conns {s' : CMState} {w : Nat}
    (hInv : CMInv s') (hkeys : w ∉ s'.conns.map Prod.fst) :
    ∀ rid', w ∉ ((getRoom s' rid').map Collaborator.ws) := by
  intro rid' hw
  rcases List.mem_map.mp hw with ⟨c', hc', hcw⟩
  unfold getRoom at hc'
  cases hl : s'.rooms.lookup rid' with
  | none =>
      rw [hl] at hc'
      cases hc'
  | some l =>
      rw [hl] at hc'
      have hmem := lookup_mem hl
      have hconn := hInv.mem_to_conn (rid', l) hmem c' (by simpa using hc')
      exact hkeys (List.mem_map.mpr ⟨(c'.ws, rid', c'), lookup_mem hconn, hcw⟩)

theorem connect_allOk_state (s : CMState) (ws : Nat)
    (rid uid uname ucolor : String) :
    (connect allOk s ws rid uid uname ucolor).1 =
      { rooms :=
          if (s.rooms.lookup rid).isSome then
            s.rooms.map (fun rl => if rl.1 = rid then
              (rl.1, rl.2 ++ [{ ws := ws, user_id := uid, user_name := uname
                                user_color := ucolor }])
              else rl)
          else s.rooms ++ [(rid, [{ ws := ws, user_id := uid
                                    user_name := uname
                                    user_color := ucolor }])]
        conns := eraseConn s.conns ws
          ++ [(ws, rid, { ws := ws, user_id := uid, user_name := uname
                          user_color := ucolor })] } := by
  unfold connect
  simp only [broadcast_allOk_eq]

theorem disconnect_allOk_state (s : CMState) (ws : Nat) :
    (disconnect allOk s ws).1 =
      match s.conns.lookup ws with
      | none => s
      | some (rid, _) =>
          { rooms := removeFromRooms s.rooms rid ws
            conns := eraseConn s.conns ws } := by
  unfold disconnect
  cases hlk : s.conns.lookup ws with
  | none => rw [evict_cons_none hlk, evict_nil]
  | some p =>
      obtain ⟨rid, c⟩ := p
      rw [evict_cons_some hlk]
      simp [sendRoom_allOk_dead, evict_nil]

theorem roomAB_eq :
    roomAB = {
      rooms := [("D1",
        [{ ws := 1, user_id := "uidA", user_name := "A", user_color := "#FF6B6B" },
         { ws := 2, user_id := "uidB", user_name := "B", user_color := "#4ECDC4" }])],
      conns := [
        (1, "D1", { ws := 1, user_id := "uidA", user_name := "A", user_color := "#FF6B6B" }),
        (2, "D1", { ws := 2, user_id := "uidB", user_name := "B", user_color := "#4ECDC4" })] } := by
  unfold roomAB applyTrace
  simp only [List.foldl_cons, List.foldl_nil, applyOp]
  rw [connect_allOk_state, connect_allOk_state]
  decide

theorem roomABC_eq :
    roomABC = {
      rooms := [("D1",
        [{ ws := 1, user_id := "uidA", user_name := "A", user_color := "#FF6B6B" },
         { ws := 2, user_id := "uidB", user_name := "B", user_color := "#4ECDC4" },
         { ws := 3, user_id := "uidC", user_name := "C", user_color := "#45B7D1" }])],
      conns := [
        (1, "D1", { ws := 1, user_id := "uidA", user_name := "A", user_color := "#FF6B6B" }),
        (2, "D1", { ws := 2, user_id := "uidB", user_name := "B", user_color := "#4ECDC4" }),
        (3, "D1", { ws := 3, user_id := "uidC", user_name := "C", user_color := "#45B7D1" })] } := by
  unfold roomABC applyTrace
  simp only [List.foldl_cons, List.foldl_nil, applyOp]
  rw [connect_allOk_state, connect_allOk_state, connect_allOk_state]
  decide

end ConnectionManager

/-! ## Claim C8 -/

open ConnectionManager in
/-- C8 (confirmed): `broadcast_to_room` attempts delivery to every member of
the room except the excluded connection; a failed send to an unreachable
member does not prevent delivery to any reachable member (every reachable
non-excluded member receives the message), and every member whose send failed
is fully evicted from the registry: absent from the connection dict and from
every room roster afterwards. -/
theorem claim8_broadcast_best_effort (ok : Nat → Bool) (s : CMState)
    (rid : String) (msg : OutMsg) (ex : Option Nat) (hInv : CMInv s) :
    (∀ c ∈ getRoom s rid, ex ≠ some c.ws → ok c.ws = true →
        Event.sent c.ws msg ∈ (broadcast_to_room ok s rid msg ex).2)
    ∧ (∀ c ∈ getRoom s rid, ex ≠ some c.ws → ok c.ws = false →
        c.ws ∉ ((broadcast_to_room ok s rid msg ex).1.conns.map Prod.fst)
        ∧ ∀ rid', c.ws ∉
            ((getRoom (broadcast_to_room ok s rid msg ex).1 rid').map
              Collaborator.ws)) := by
  by_cases hroom : (s.rooms.lookup rid).isSome
  · constructor
    · intro c hc hex hok
      have hsent : Event.sent c.ws msg ∈ (sendRoom ok s rid msg ex).1 := by
        rw [sendRoom_eq]
        exact List.mem_map.mpr
          ⟨c, List.mem_filter.mpr ⟨hc, by simp [hex, hok]⟩, rfl⟩
      unfold broadcast_to_room
      rw [if_pos hroom]
      exact List.mem_append.mpr (Or.inl hsent)
    · intro c hc hex hok
      have hdead : c.ws ∈ (sendRoom ok s rid msg ex).2 := by
        rw [sendRoom_eq]
        exact List.mem_map.mpr
          ⟨c, List.mem_filter.mpr ⟨hc, by simp [hex, hok]⟩, rfl⟩
      have hstate : (broadcast_to_room ok s rid msg ex).1
          = (evict ok s (sendRoom ok s rid msg ex).2).1 := by
        unfold broadcast_to_room
        rw [if_pos hroom]
      have hnot := evict_removes ok s (sendRoom ok s rid msg ex).2 c.ws hdead
      have hinv' := evict_inv ok s (sendRoom ok s rid msg ex).2 hInv
      rw [hstate]
      exact ⟨hnot, not_in_roster_of_not_in_conns hinv' hnot⟩
  · have hg : getRoom s rid = [] := by
      unfold getRoom
      cases hl : s.rooms.lookup rid with
      | none => rfl
      | some l => simp [hl] at hroom
    simp [hg]

/-- C8 (witness): room `"D1"` with members on websockets 1, 2 and 3, where 2
is unreachable: broadcasting a frame with no exclusion delivers to 1 and to
3, and 2 is afterwards absent from the connection dict and from the roster. -/
theorem claim8_witness :
    Event.sent 1 OutMsg.pong
      ∈ (ConnectionManager.broadcast_to_room okExcept2 roomABC "D1"
          OutMsg.pong none).2
    ∧ Event.sent 3 OutMsg.pong
      ∈ (ConnectionManager.broadcast_to_room okExcept2 roomABC "D1"
          OutMsg.pong none).2
    ∧ (2 : Nat) ∉ ((ConnectionManager.broadcast_to_room okExcept2 roomABC "D1"
          OutMsg.pong none).1.conns.map Prod.fst)
    ∧ (2 : Nat) ∉ ((ConnectionManager.getRoom
          (ConnectionManager.broadcast_to_room okExcept2 roomABC "D1"
            OutMsg.pong none).1 "D1").map Collaborator.ws) := by
  have h := claim8_broadcast_best_effort okExcept2 roomABC "D1" OutMsg.pong none
    (by
      rw [ConnectionManager.roomABC_eq]
      exact ⟨by simp, by simp, by decide, by decide, by decide, by
        rintro rl hrl
        rcases List.mem_cons.mp hrl with rfl | hrl'
        · simp
        · cases hrl'⟩)
  have hA : ({ ws := 1, user_id := "uidA", user_name := "A"
               user_color := "#FF6B6B" } : Collaborator)
      ∈ ConnectionManager.getRoom roomABC "D1" := by
    rw [ConnectionManager.roomABC_eq]
    decide
  have hB : ({ ws := 2, user_id := "uidB", user_name := "B"
               user_color := "#4ECDC4" } : Collaborator)
      ∈ ConnectionManager.getRoom roomABC "D1" := by
    rw [ConnectionManager.roomABC_eq]
    decide
  have hC : ({ ws := 3, user_id := "uidC", user_name := "C"
               user_color := "#45B7D1" } : Collaborator)
      ∈ ConnectionManager.getRoom roomABC "D1" := by
    rw [ConnectionManager.roomABC_eq]
    decide
  have h2 := h.2 _ hB (by decide) (by decide)
  exact ⟨h.1 _ hA (by decide) (by decide), h.1 _ hC (by decide) (by decide),
    h2.1, h2.2 "D1"⟩

namespace ConnectionManager

theorem eraseConn_of_fresh {conns : List (Nat × String × Collaborator)}
    {ws : Nat} (h : conns.lookup ws = none) : eraseConn conns ws = conns :=
  List.filter_eq_self.mpr
    (fun p hp => by simpa using lookup_none_iff.mp h p hp)

theorem keys_map_setRoom {rooms : List (String × List Collaborator)}
    {rid : String} {c : Collaborator} :
    ((rooms.map (fun rl => if rl.1 = rid then (rl.1, rl.2 ++ [c]) else rl)).map
        Prod.fst) = rooms.map Prod.fst := by
  rw [List.map_map]
  apply List.map_congr_left
  intro rl _
  by_cases h : rl.1 = rid <;> simp [h]

theorem notmem_keys_of_lookup_none {α β : Type} [BEq α] [LawfulBEq α]
    {l : List (α × β)} {k : α} (h : l.lookup k = none) :
    k ∉ l.map Prod.fst := by
  intro hk
  rcases List.mem_map.mp hk with ⟨p, hp, hpk⟩
  exact lookup_none_iff.mp h p hp hpk

/-- The collaborator literal that `connect` builds. -/
def mkCollab (ws : Nat) (uid uname ucolor : String) : Collaborator :=
  { ws := ws, user_id := uid, user_name := uname, user_color := ucolor }

theorem inv_connect {s : CMState} {ws : Nat} {rid uid uname ucolor : String}
    (hInv : CMInv s) (hfresh : s.conns.lookup ws = none) :
    CMInv ((connect allOk s ws rid uid uname ucolor).1) := by
  rw [connect_allOk_state]
  obtain ⟨hrn, hcn, hne, hmc, hcm, hwn⟩ := hInv
  have herase : eraseConn s.conns ws = s.conns := eraseConn_of_fresh hfresh
  have hwsfresh : ws ∉ s.conns.map Prod.fst := notmem_keys_of_lookup_none hfresh
  have hwsroom : ∀ rl ∈ s.rooms, ∀ c' ∈ rl.2, c'.ws ≠ ws := by
    intro rl hrl c' hc' hcontra
    have := hmc rl hrl c' hc'
    rw [hcontra, hfresh] at this
    cases this
  by_cases hex : (s.rooms.lookup rid).isSome
  · rw [if_pos hex]
    refine ⟨?_, ?_, ?_, ?_, ?_, ?_⟩ <;> dsimp only
    · rw [keys_map_setRoom]
      exact hrn
    · rw [herase, List.map_append]
      rw [List.nodup_append]
      exact ⟨hcn, List.nodup_singleton _, by simpa using hwsfresh⟩
    · intro rl' hrl'
      rcases List.mem_map.mp hrl' with ⟨rl, hrl, hfn⟩
      by_cases h : rl.1 = rid
      · rw [if_pos h] at hfn
        rw [← hfn]
        simp
      · rw [if_neg h] at hfn
        rw [← hfn]
        exact hne rl hrl
    · intro rl' hrl' c' hc'
      rw [herase]
      rcases List.mem_map.mp hrl' with ⟨rl, hrl, hfn⟩
      by_cases h : rl.1 = rid
      · rw [if_pos h] at hfn
        rw [← hfn] at hc' ⊢
        rcases List.mem_append.mp hc' with hold | hnew
        · rw [lookup_append, hmc rl hrl c' hold]
        · have hceq : c' = mkCollab ws uid uname ucolor := by simpa using hnew
          have hcw : c'.ws = ws := by rw [hceq]; rfl
          rw [lookup_append, hcw, hfresh]
          simp [List.lookup, hceq, mkCollab, h]
      · rw [if_neg h] at hfn
        rw [← hfn] at hc' ⊢
        have hcw : c'.ws ≠ ws := hwsroom rl hrl c' hc'
        rw [lookup_append, hmc rl hrl c' hc']
    · intro p hp
      rw [herase] at hp
      rcases List.mem_append.mp hp with hold | hnew
      · obtain ⟨rl, hrl, h1, h2, h3⟩ := hcm p hold
        by_cases h : rl.1 = rid
        · refine ⟨(rl.1, rl.2 ++ [mkCollab ws uid uname ucolor]), ?_, ?_, ?_, h3⟩
          · refine List.mem_map.mpr ⟨rl, hrl, ?_⟩
            rw [if_pos h]
            rfl
          · exact h1
          · exact List.mem_append.mpr (Or.inl h2)
        · refine ⟨rl, ?_, h1, h2, h3⟩
          refine List.mem_map.mpr ⟨rl, hrl, ?_⟩
          rw [if_neg h]
      · have hpeq : p = (ws, rid, mkCollab ws uid uname ucolor) := by
          simpa using hnew
        subst hpeq
        rcases Option.isSome_iff_exists.mp hex with ⟨l0, hl0⟩
        refine ⟨(rid, l0 ++ [mkCollab ws uid uname ucolor]), ?_, rfl, ?_, rfl⟩
        · refine List.mem_map.mpr ⟨(rid, l0), lookup_mem hl0, ?_⟩
          rw [if_pos rfl]
          rfl
        · exact List.mem_append.mpr (Or.inr (by simp))
    · intro rl' hrl'
      rcases List.mem_map.mp hrl' with ⟨rl, hrl, hfn⟩
      by_cases h : rl.1 = rid
      · rw [if_pos h] at hfn
        rw [← hfn]
        simp only [List.map_append]
        rw [List.nodup_append]
        refine ⟨hwn rl hrl, by simp [mkCollab], ?_⟩
        intro w hw hw2
        simp only [mkCollab, List.map_cons, List.map_nil, List.mem_singleton]
          at hw2
        rcases List.mem_map.mp hw with ⟨c', hc', hcw⟩
        exact hwsroom rl hrl c' hc' (by rw [hcw, hw2])
      · rw [if_neg h] at hfn
        rw [← hfn]
        exact hwn rl hrl
  · rw [if_neg hex]
    have hlnone : s.rooms.lookup rid = none :=
      Option.not_isSome_iff_eq_none.mp hex
    have hridfresh : rid ∉ s.rooms.map Prod.fst :=
      notmem_keys_of_lookup_none hlnone
    refine ⟨?_, ?_, ?_, ?_, ?_, ?_⟩ <;> dsimp only
    · rw [List.map_append, List.nodup_append]
      exact ⟨hrn, List.nodup_singleton _, by simpa using hridfresh⟩
    · rw [herase, List.map_append, List.nodup_append]
      exact ⟨hcn, List.nodup_singleton _, by simpa using hwsfresh⟩
    · intro rl' hrl'
      rcases List.mem_append.mp hrl' with hold | hnew
      · exact hne rl' hold
      · have : rl' = (rid, [mkCollab ws uid uname ucolor]) := by simpa using hnew
        rw [this]
        simp
    · intro rl' hrl' c' hc'
      rw [herase]
      rcases List.mem_append.mp hrl' with hold | hnew
      · have hcw : c'.ws ≠ ws := hwsroom rl' hold c' hc'
        rw [lookup_append, hmc rl' hold c' hc']
      · have hrleq : rl' = (rid, [mkCollab ws uid uname ucolor]) := by
          simpa using hnew
        rw [hrleq] at hc'
        have hceq : c' = mkCollab ws uid uname ucolor := by simpa using hc'
        have hcw : c'.ws = ws := by rw [hceq]; rfl
        rw [hrleq, lookup_append, hcw, hfresh]
        simp [List.lookup, hceq, mkCollab]
    · intro p hp
      rw [herase] at hp
      rcases List.mem_append.mp hp with hold | hnew
      · obtain ⟨rl, hrl, h1, h2, h3⟩ := hcm p hold
        exact ⟨rl, List.mem_append.mpr (Or.inl hrl), h1, h2, h3⟩
      · have hpeq : p = (ws, rid, mkCollab ws uid uname ucolor) := by
          simpa using hnew
        subst hpeq
        exact ⟨(rid, [mkCollab ws uid uname ucolor]),
          List.mem_append.mpr (Or.inr (by simp [mkCollab])), rfl,
          by simp [mkCollab], rfl⟩
    · intro rl' hrl'
      rcases List.mem_append.mp hrl' with hold | hnew
      · exact hwn rl' hold
      · have : rl' = (rid, [mkCollab ws uid uname ucolor]) := by simpa using hnew
        rw [this]
        simp [mkCollab]

end ConnectionManager

namespace ConnectionManager

theorem getRoom_connect_allOk {s : CMState} {ws : Nat}
    {rid uid uname ucolor r : String} :
    getRoom ((connect allOk s ws rid uid uname ucolor).1) r =
      if r = rid then getRoom s r ++ [mkCollab ws uid uname ucolor]
      else getRoom s r := by
  rw [connect_allOk_state]
  unfold getRoom
  dsimp only
  by_cases hex : (s.rooms.lookup rid).isSome
  · rw [if_pos hex, lookup_map_setRoom]
    by_cases hr : r = rid
    · rw [if_pos hr, if_pos hr]
      cases hl : s.rooms.lookup r with
      | none =>
          rw [hr] at hl
          rw [hl] at hex
          cases hex
      | some l => simp [mkCollab]
    · rw [if_neg hr, if_neg hr]
  · rw [if_neg hex]
    have hlnone : s.rooms.lookup rid = none :=
      Option.not_isSome_iff_eq_none.mp hex
    rw [lookup_append]
    by_cases hr : r = rid
    · subst hr
      rw [hlnone]
      simp [List.lookup, mkCollab]
    · rw [if_neg hr]
      cases hl : s.rooms.lookup r with
      | none =>
          have hbe : (r == rid) = false := by simp [hr]
          simp [List.lookup, hbe]
      | some l => simp

theorem getRoom_disconnect_allOk {s : CMState} {ws : Nat} {r : String}
    (hInv : CMInv s) :
    getRoom ((disconnect allOk s ws).1) r =
      (getRoom s r).filter (fun c => c.ws ≠ ws) := by
  rw [disconnect_allOk_state]
  cases hlk : s.conns.lookup ws with
  | none =>
      have hid : ∀ c ∈ getRoom s r, c.ws ≠ ws := by
        intro c hc hcontra
        unfold getRoom at hc
        cases hl : s.rooms.lookup r with
        | none =>
            rw [hl] at hc
            cases hc
        | some l =>
            rw [hl] at hc
            have hq := hInv.mem_to_conn (r, l) (lookup_mem hl) c
              (by simpa using hc)
            rw [hcontra, hlk] at hq
            cases hq
      exact (List.filter_eq_self.mpr
        (fun c hc => by simpa using hid c hc)).symm
  | some p =>
      obtain ⟨rid0, c0⟩ := p
      show ((removeFromRooms s.rooms rid0 ws).lookup r).getD []
        = (getRoom s r).filter (fun c => c.ws ≠ ws)
      rw [getRoom_removeFromRooms hInv.rooms_nodup]
      by_cases hr : r = rid0
      · rw [if_pos hr]
        rfl
      · rw [if_neg hr]
        have hid : ∀ c ∈ getRoom s r, c.ws ≠ ws := by
          intro c hc hcontra
          unfold getRoom at hc
          cases hl : s.rooms.lookup r with
          | none =>
              rw [hl] at hc
              cases hc
          | some l =>
              rw [hl] at hc
              have hq := hInv.mem_to_conn (r, l) (lookup_mem hl) c
                (by simpa using hc)
              rw [hcontra, hlk] at hq
              injection hq with hq
              injection hq with hq1 _
              exact hr hq1.symm
        exact (List.filter_eq_self.mpr
          (fun c hc => by simpa using hid c hc)).symm

theorem applyOp_inv {s : CMState} {op : TraceOp} (hInv : CMInv s)
    (hok : opGuard s op = true) : CMInv (applyOp s op) := by
  cases op with
  | join ws rid uid uname ucolor =>
      exact inv_connect hInv
        (Option.isNone_iff_eq_none.mp (by simpa [opGuard] using hok))
  | leave ws => exact evict_inv allOk s [ws] hInv

theorem applyOp_getRoom {s : CMState} {op : TraceOp} (hInv : CMInv s) :
    ∀ r, getRoom (applyOp s op) r = specStep r (getRoom s r) op := by
  intro r
  cases op with
  | join ws rid uid uname ucolor =>
      show getRoom ((connect allOk s ws rid uid uname ucolor).1) r = _
      rw [getRoom_connect_allOk]
      simp only [specStep]
      by_cases hr : r = rid
      · rw [if_pos hr, if_pos hr.symm]
        rfl
      · rw [if_neg hr, if_neg (fun hh => hr hh.symm)]
  | leave ws =>
      show getRoom ((disconnect allOk s ws).1) r = _
      rw [getRoom_disconnect_allOk hInv]
      simp only [specStep]

theorem cmEmpty_inv : CMInv cmEmpty := by
  refine ⟨?_, ?_, ?_, ?_, ?_, ?_⟩ <;> simp [cmEmpty]

theorem applyTrace_spec :
    ∀ (t : List TraceOp) (s : CMState), CMInv s → traceOK s t = true →
      (∀ r, getRoom (applyTrace s t) r = specRoster r (getRoom s r) t)
      ∧ CMInv (applyTrace s t) := by
  intro t
  induction t with
  | nil =>
      intro s hInv _
      exact ⟨fun r => rfl, hInv⟩
  | cons op t ih =>
      intro s hInv hok
      rw [show traceOK s (op :: t)
            = (opGuard s op && traceOK (applyOp s op) t) from rfl,
        Bool.and_eq_true] at hok
      have hInv' : CMInv (applyOp s op) := applyOp_inv hInv hok.1
      have hrec := ih (applyOp s op) hInv' hok.2
      constructor
      · intro r
        have h1 : applyTrace s (op :: t) = applyTrace (applyOp s op) t := rfl
        have h2 : specRoster r (getRoom s r) (op :: t)
            = specRoster r (specStep r (getRoom s r) op) t := rfl
        rw [h1, h2, hrec.1 r, applyOp_getRoom hInv]
      · exact hrec.2

end ConnectionManager

/-! ## Claim C7 -/

open ConnectionManager in
/-- C7 (confirmed): after any finite sequence of admissions (each with a
websocket fresh to the registry, as in the endpoint) and removals, the room
list for each room id is exactly the specification-side roster — the
collaborators admitted to that room and not yet removed, in admission order —
with no duplicate websockets; no empty room persists in the registry (so
removing the last member deletes the room), and removing an unknown
connection changes nothing and emits nothing. -/
theorem claim7_registry_roster (t : List TraceOp) (rid : String)
    (h : traceOK cmEmpty t = true) :
    getRoom (applyTrace cmEmpty t) rid = specRoster rid [] t
    ∧ get_room_collaborators (applyTrace cmEmpty t) rid
        = (specRoster rid [] t).map (fun c =>
            { user_id := c.user_id, user_name := c.user_name
              user_color := c.user_color
              cursor_x := c.cursor_x, cursor_y := c.cursor_y })
    ∧ ((getRoom (applyTrace cmEmpty t) rid).map Collaborator.ws).Nodup
    ∧ (∀ rl ∈ (applyTrace cmEmpty t).rooms, rl.2 ≠ [])
    ∧ (∀ (s : CMState) (ws : Nat), s.conns.lookup ws = none →
        applyOp s (TraceOp.leave ws) = s
        ∧ (disconnect allOk s ws).2 = []) := by
  have hmain := applyTrace_spec t cmEmpty cmEmpty_inv h
  have hroster : getRoom (applyTrace cmEmpty t) rid = specRoster rid [] t := by
    rw [hmain.1 rid]
    rfl
  refine ⟨hroster, ?_, ?_, hmain.2.room_nonempty, ?_⟩
  · unfold get_room_collaborators
    rw [hroster]
  · cases hl : (applyTrace cmEmpty t).rooms.lookup rid with
    | none =>
        unfold getRoom
        rw [hl]
        simp
    | some l =>
        have : getRoom (applyTrace cmEmpty t) rid = l := by
          unfold getRoom
          rw [hl]
          rfl
        rw [this]
        exact hmain.2.ws_nodup (rid, l) (lookup_mem hl)
  · intro s ws hnone
    have hdisc : disconnect allOk s ws = (s, []) := by
      unfold disconnect
      rw [evict_cons_none hnone, evict_nil]
    exact ⟨congrArg Prod.fst hdisc, congrArg Prod.snd hdisc⟩

/-- C7 (witness): the trace "1 joins r, 2 joins r, 1 leaves" run from the
empty registry: the theorem yields the concrete roster containing exactly
participant 2, and no empty room persists. -/
theorem claim7_witness :
    ConnectionManager.getRoom
      (ConnectionManager.applyTrace cmEmpty
        [TraceOp.join 1 "r" "u1" "n1" "c1",
         TraceOp.join 2 "r" "u2" "n2" "c2",
         TraceOp.leave 1]) "r"
      = [{ ws := 2, user_id := "u2", user_name := "n2", user_color := "c2" }]
    ∧ ∀ rl ∈ (ConnectionManager.applyTrace cmEmpty
        [TraceOp.join 1 "r" "u1" "n1" "c1",
         TraceOp.join 2 "r" "u2" "n2" "c2",
         TraceOp.leave 1]).rooms, rl.2 ≠ [] := by
  have hs1 : ConnectionManager.applyOp cmEmpty
      (TraceOp.join 1 "r" "u1" "n1" "c1") =
      { rooms := [("r", [{ ws := 1, user_id := "u1", user_name := "n1", user_color := "c1" }])],
        conns := [(1, "r", { ws := 1, user_id := "u1", user_name := "n1", user_color := "c1" })] } := by
    show (ConnectionManager.connect allOk cmEmpty 1 "r" "u1" "n1" "c1").1 = _
    rw [ConnectionManager.connect_allOk_state]
    decide
  have hs2 : ConnectionManager.applyOp
      ({ rooms := [("r", [{ ws := 1, user_id := "u1", user_name := "n1", user_color := "c1" }])],
         conns := [(1, "r", { ws := 1, user_id := "u1", user_name := "n1", user_color := "c1" })] } : CMState)
      (TraceOp.join 2 "r" "u2" "n2" "c2") =
      { rooms := [("r",
          [{ ws := 1, user_id := "u1", user_name := "n1", user_color := "c1" },
           { ws := 2, user_id := "u2", user_name := "n2", user_color := "c2" }])],
        conns := [
          (1, "r", { ws := 1, user_id := "u1", user_name := "n1", user_color := "c1" }),
          (2, "r", { ws := 2, user_id := "u2", user_name := "n2", user_color := "c2" })] } := by
    show (ConnectionManager.connect allOk _ 2 "r" "u2" "n2" "c2").1 = _
    rw [ConnectionManager.connect_allOk_state]
    decide
  have hok : ConnectionManager.traceOK cmEmpty
      [TraceOp.join 1 "r" "u1" "n1" "c1",
       TraceOp.join 2 "r" "u2" "n2" "c2",
       TraceOp.leave 1] = true := by
    simp only [ConnectionManager.traceOK, hs1, hs2, Bool.and_eq_true]
    refine ⟨by decide, by decide, by decide⟩
  have h := claim7_registry_roster
    [TraceOp.join 1 "r" "u1" "n1" "c1",
     TraceOp.join 2 "r" "u2" "n2" "c2",
     TraceOp.leave 1] "r" hok
  refine ⟨?_, h.2.2.2.1⟩
  rw [h.1]
  decide

namespace ConnectionManager

theorem disconnect_allOk_eq {s : CMState} {ws : Nat} {rid : String}
    {c : Collaborator} (h : s.conns.lookup ws = some (rid, c)) :
    disconnect allOk s ws =
      ({ rooms := removeFromRooms s.rooms rid ws
         conns := eraseConn s.conns ws },
       (sendRoom allOk
          { rooms := removeFromRooms s.rooms rid ws
            conns := eraseConn s.conns ws }
          rid
          (OutMsg.userLeft c.user_id c.user_name
            (get_room_collaborators
              { rooms := removeFromRooms s.rooms rid ws
                conns := eraseConn s.conns ws } rid))
          none).1) := by
  unfold disconnect
  rw [evict_cons_some h]
  simp [sendRoom_allOk_dead, evict_nil]

end ConnectionManager

/-! ## Claims C1, C6 -/

/-- Exact relay behaviour of a `shape_add` frame when every send succeeds:
the store passes through untouched and the frame is delivered to exactly the
non-sender room members. -/
theorem wsStep_shapeAdd_allOk (rid uid uname ucolor : String) (sender : Nat)
    (s : CMState) (st : Store) (shp : Option Shape) :
    DrawingWS.systemStep allOk rid uid uname ucolor sender (s, st)
        { type? := some "shape_add", shape := shp }
      = ((s, st),
         ((ConnectionManager.getRoom s rid).filter
            (fun c => !decide (sender = c.ws))).map
           (fun c => Event.sent c.ws (OutMsg.shapeAdd shp uid uname))) := by
  unfold DrawingWS.systemStep DrawingWS.wsStep
  simp [ConnectionManager.broadcast_allOk_eq]

/-- C1 (amended): for every `shape_add`, `shape_update`, `shape_delete` or
`shapes_sync` frame, the websocket handler leaves the Versioned Drawing Store
completely untouched — no HistoryEntry is appended and no version bump occurs
(the handler holds no database session and never calls `DrawingService`) —
and a `shape_add` frame is relayed with its shape payload to exactly the
room members other than the sender (shown here with all sends succeeding). -/
theorem claim1_amended_relay_without_durability :
    (∀ (ok : Nat → Bool) (rid uid uname ucolor : String) (sender : Nat)
        (sys : CMState × Store) (d : FrameData),
        d.type? = some "shape_add" ∨ d.type? = some "shape_update"
          ∨ d.type? = some "shape_delete" ∨ d.type? = some "shapes_sync" →
        (DrawingWS.systemStep ok rid uid uname ucolor sender sys d).1.2 = sys.2)
    ∧ (∀ (rid uid uname ucolor : String) (sender : Nat) (s : CMState)
        (st : Store) (shp : Option Shape),
        DrawingWS.systemStep allOk rid uid uname ucolor sender (s, st)
            { type? := some "shape_add", shape := shp }
          = ((s, st),
             ((ConnectionManager.getRoom s rid).filter
                (fun c => !decide (sender = c.ws))).map
               (fun c => Event.sent c.ws (OutMsg.shapeAdd shp uid uname)))) := by
  constructor
  · intro ok rid uid uname ucolor sender sys d _
    rfl
  · intro rid uid uname ucolor sender s st shp
    exact wsStep_shapeAdd_allOk rid uid uname ucolor sender s st shp

/-- C1 (witness): the amended theorem evaluated at the C1 scenario (room
`"D1"` with A and B, store at version 3, A sends `shape_add`). -/
theorem claim1_amended_witness :
    (DrawingWS.systemStep allOk "D1" "uidA" "A" "#FF6B6B" 1 (roomAB, c1Store)
        { type? := some "shape_add", shape := some "s1:rect" }).1.2 = c1Store
    ∧ DrawingWS.systemStep allOk "D1" "uidA" "A" "#FF6B6B" 1 (roomAB, c1Store)
        { type? := some "shape_add", shape := some "s1:rect" }
      = ((roomAB, c1Store),
         ((ConnectionManager.getRoom roomAB "D1").filter
            (fun c => !decide (1 = c.ws))).map
           (fun c => Event.sent c.ws
              (OutMsg.shapeAdd (some "s1:rect") "uidA" "A"))) :=
  ⟨claim1_amended_relay_without_durability.1 allOk "D1" "uidA" "A" "#FF6B6B" 1
      (roomAB, c1Store) { type? := some "shape_add", shape := some "s1:rect" }
      (Or.inl rfl),
   claim1_amended_relay_without_durability.2 "D1" "uidA" "A" "#FF6B6B" 1
      roomAB c1Store (some "s1:rect")⟩

/-- C1 (counterexample): in a room at store version 3, participant A's
`shape_add` leaves the version at 3 and appends no HistoryEntry at version 4
(the claim demands version 4 and an `update_shapes` entry at version 4),
while B — and only B — receives the relayed `shape_add` frame. -/
theorem claim1_counterexample :
    c1Store.drawing.version = 3
    ∧ (c1Res.1.2).drawing.version = 3
    ∧ (∀ e ∈ (c1Res.1.2).history, e.version ≠ 4)
    ∧ Event.sent 2 (OutMsg.shapeAdd (some "s1:rect") "uidA" "A") ∈ c1Res.2
    ∧ (∀ m, Event.sent 1 m ∉ c1Res.2) := by
  have hres : c1Res = ((roomAB, c1Store),
      [Event.sent 2 (OutMsg.shapeAdd (some "s1:rect") "uidA" "A")]) := by
    unfold c1Res
    rw [wsStep_shapeAdd_allOk, ConnectionManager.roomAB_eq]
    decide
  refine ⟨by decide, ?_, ?_, ?_, ?_⟩
  · rw [hres]
    decide
  · rw [hres]
    decide
  · rw [hres]
    decide
  · intro m hm
    rw [hres] at hm
    simp at hm

/-- C6 (counterexample): the claim says a frame that fails to decode is
dropped and the connection stays open.  In a session of A (websocket 1, in
room `"D1"` with B), a malformed first frame makes `receive_json` raise into
the blanket `except Exception` handler, which disconnects A: afterwards A is
absent from the registry and the following `ping` frame is never processed
(no pong is ever sent). -/
theorem claim6_counterexample :
    (∃ p ∈ roomAB.conns, p.1 = 1)
    ∧ (∀ p ∈ c6Res.1.conns, p.1 ≠ 1)
    ∧ Event.sent 1 OutMsg.pong ∉ c6Res.2 := by
  have hres : c6Res =
      ({ rooms := [("D1",
          [{ ws := 2, user_id := "uidB", user_name := "B", user_color := "#4ECDC4" }])],
         conns := [(2, "D1",
          { ws := 2, user_id := "uidB", user_name := "B", user_color := "#4ECDC4" })] },
       [Event.sent 2 (OutMsg.userLeft "uidA" "A"
          [{ user_id := "uidB", user_name := "B", user_color := "#4ECDC4" }])]) := by
    show ConnectionManager.disconnect allOk roomAB 1 = _
    have hlk : roomAB.conns.lookup 1 = some ("D1",
        { ws := 1, user_id := "uidA", user_name := "A",
          user_color := "#FF6B6B" }) := by
      rw [ConnectionManager.roomAB_eq]
      decide
    rw [ConnectionManager.disconnect_allOk_eq hlk,
        ConnectionManager.roomAB_eq]
    decide
  refine ⟨?_, ?_, ?_⟩
  · refine ⟨(1, "D1",
      { ws := 1, user_id := "uidA", user_name := "A", user_color := "#FF6B6B" }),
      ?_, rfl⟩
    rw [ConnectionManager.roomAB_eq]
    decide
  · rw [hres]
    decide
  · rw [hres]
    decide

/-- C6 (amended): a frame whose decoded `type` is none of the recognized
kinds is dropped with no state change, no event and the loop continues (the
connection stays open), but a frame that fails to decode terminates the
receive loop through the blanket exception handler: the handler disconnects
the sender and the remaining inbound frames are never read. -/
theorem claim6_amended_decode_failure_disconnects :
    (∀ (ok : Nat → Bool) (rid uid uname ucolor : String) (sender : Nat)
        (s : CMState) (d : FrameData),
        (∀ t, d.type? = some t →
          t ∉ (["cursor_move", "shape_add", "shape_update", "shape_delete",
                "shapes_sync", "selection_change", "chat",
                "ping"] : List String)) →
        DrawingWS.wsStep ok rid uid uname ucolor sender s d = (s, []))
    ∧ (∀ (ok : Nat → Bool) (rid uid uname ucolor : String) (sender : Nat)
        (s : CMState) (rest : List Inbound),
        DrawingWS.wsLoop ok rid uid uname ucolor sender s
            (Inbound.malformed :: rest)
          = ConnectionManager.disconnect ok s sender) := by
  constructor
  · intro ok rid uid uname ucolor sender s d h
    unfold DrawingWS.wsStep
    rw [if_neg (fun hc => by have := h _ hc; simp at this),
        if_neg (fun hc => by have := h _ hc; simp at this),
        if_neg (fun hc => by have := h _ hc; simp at this),
        if_neg (fun hc => by have := h _ hc; simp at this),
        if_neg (fun hc => by have := h _ hc; simp at this),
        if_neg (fun hc => by have := h _ hc; simp at this),
        if_neg (fun hc => by have := h _ hc; simp at this),
        if_neg (fun hc => by have := h _ hc; simp at this)]
  · intro ok rid uid uname ucolor sender s rest
    rfl

/-- C6 (witness): the amended theorem evaluated on an unrecognized `resize`
frame (dropped, session state unchanged) and on a malformed frame in A's
session (the loop becomes the disconnect of A). -/
theorem claim6_amended_witness :
    DrawingWS.wsStep allOk "D1" "uidA" "A" "#FF6B6B" 1 roomAB
        { type? := some "resize" } = (roomAB, [])
    ∧ DrawingWS.wsLoop allOk "D1" "uidA" "A" "#FF6B6B" 1 roomAB
        [Inbound.malformed, Inbound.frame { type? := some "ping" }]
      = ConnectionManager.disconnect allOk roomAB 1 :=
  ⟨claim6_amended_decode_failure_disconnects.1 allOk "D1" "uidA" "A" "#FF6B6B"
      1 roomAB { type? := some "resize" }
      (fun t ht => by injection ht with ht; rw [← ht]; decide),
   claim6_amended_decode_failure_disconnects.2 allOk "D1" "uidA" "A" "#FF6B6B"
      1 roomAB [Inbound.frame { type? := some "ping" }]⟩
